import Mathlib

/-
Verification development for the attention engine in
src/torchscale/component/multihead_attention.py (the live "V2" code,
lines 204-411 of the file; the surrounding triple-quoted strings are
inert documentation).

The embedding models a torch tensor as a shape (list of dimension
sizes) together with its row-major materialized data, with rational
numbers standing for the floating-point element values.  External
collaborators that the spec excludes from the core (the MultiwayWrapper
projection routing, the XPOS position encoder, the LayerNorm, the
Dropout module, the FlashMHA kernel, the exponential used inside
F.softmax and the float16 rounding) are carried as opaque function
parameters of the engine configuration, exactly as the spec's
collaborator contracts describe them.  Fallible torch operations
return Except String.
-/

namespace TSF

/-- Error messages used by the embedded torch operations.  Messages are
named constants so that theorems can pin down the failing operation. -/
def errUnpack : String := "ValueError: not enough values to unpack"

def errQueryDim : String := "AssertionError: query dim mismatch"

def errKeyBatch : String := "AssertionError: key batch size mismatch"

def errBszZero : String := "AssertionError: bsz is zero"

def errLinear : String := "Linear: input feature size mismatch"

def errLinearScalar : String := "Linear: zero-dimensional input"

def errTopkRange : String := "topk: selected index k out of range"

def errTopkDim : String := "IndexError: dimension out of range"

def errView : String := "view: size mismatch"

def errViewInfer : String := "view: cannot infer dimension"

def errViewMulti : String := "view: only one dimension can be inferred"

def errReshape : String := "reshape: size mismatch"

def errReshapeInfer : String := "reshape: cannot infer dimension"

def errReshapeMulti : String := "reshape: only one dimension can be inferred"

def errStack : String := "stack: tensors must have the same shape"

def errCat : String := "cat: shape mismatch"

def errBmm3d : String := "bmm: expected 3D tensors"

def errBmmShape : String := "bmm: batch or inner dimension mismatch"

def errBroadcast : String := "broadcast: incompatible shapes"

def errExpandFew : String := "expand: fewer sizes than dimensions"

def errExpandNew : String := "expand: size -1 not allowed for a new dimension"

def errExpandSize : String := "expand: invalid expanded size"

def errUnbound : String :=
  "UnboundLocalError: local variable attn_weights referenced before assignment"

def errKeyErrorPrevValue : String := "KeyError: prev_value"

/-- Model of a torch tensor: the shape and the row-major materialized
data.  Element values are rationals standing for floats. -/
structure Tensor where
  shape : List Nat
  data : List ℚ
deriving DecidableEq, Repr

/-- Well-formedness: the data list has exactly as many entries as the
shape demands. -/
def Tensor.WF (t : Tensor) : Prop := t.data.length = t.shape.prod

instance (t : Tensor) : Decidable t.WF := by unfold Tensor.WF; infer_instance

/-- Row-major flat position of a multi-index. -/
def flatPos : List Nat → List Nat → Nat
  | _ :: ds, i :: is => i * ds.prod + flatPos ds is
  | _, _ => 0

/-- Element lookup at a multi-index (0 outside the data). -/
def Tensor.get (t : Tensor) (ix : List Nat) : ℚ :=
  t.data.getD (flatPos t.shape ix) 0

/-- All multi-indices of a shape, in row-major order. -/
def allIdx : List Nat → List (List Nat)
  | [] => [[]]
  | d :: ds => ((List.range d).map (fun i => (allIdx ds).map (fun ix => i :: ix))).flatten

/-- Swap the entries at positions i and j of a list. -/
def swapAt (l : List Nat) (i j : Nat) : List Nat :=
  (l.set i (l.getD j 0)).set j (l.getD i 0)

/-- torch Tensor.transpose(i, j): swap two axes.  The data is the
row-major materialization of the transposed view. -/
def Tensor.transpose (t : Tensor) (i j : Nat) : Tensor :=
  { shape := swapAt t.shape i j
    data := (allIdx (swapAt t.shape i j)).map (fun ix => t.get (swapAt ix i j)) }

/-- Elementwise map (used for dtype casts and scalar operations). -/
def Tensor.map (t : Tensor) (f : ℚ → ℚ) : Tensor :=
  { shape := t.shape, data := t.data.map f }

/-- Scalar multiplication, as in `q = q * self.scaling`. -/
def Tensor.scale (t : Tensor) (c : ℚ) : Tensor := t.map (fun x => x * c)

/-- Argument of a view/reshape call: a fixed size, or the -1
placeholder whose size torch infers. -/
inductive VDim where
  | fix (n : Nat)
  | infer
deriving DecidableEq, Repr

/-- Product of the fixed sizes of a view argument list. -/
def vKnown : List VDim → Nat
  | [] => 1
  | VDim.fix n :: ds => n * vKnown ds
  | VDim.infer :: ds => vKnown ds

/-- Number of -1 placeholders in a view argument list. -/
def vInfers : List VDim → Nat
  | [] => 0
  | VDim.fix _ :: ds => vInfers ds
  | VDim.infer :: ds => 1 + vInfers ds

/-- Resolve view/reshape sizes against the element count, inferring at
most one -1 dimension, exactly as torch does.  The three error strings
are supplied by the caller so view and reshape errors stay distinct. -/
def resolveView (eMis eInf eMul : String) (total : Nat) (ds : List VDim) :
    Except String (List Nat) :=
  if vInfers ds = 0 then
    if vKnown ds = total then
      Except.ok (ds.map (fun d => match d with | VDim.fix n => n | VDim.infer => 0))
    else Except.error eMis
  else if vInfers ds = 1 then
    if vKnown ds = 0 then Except.error eInf
    else if vKnown ds * (total / vKnown ds) = total then
      Except.ok (ds.map (fun d =>
        match d with | VDim.fix n => n | VDim.infer => total / vKnown ds))
    else Except.error eMis
  else Except.error eMul

/-- torch Tensor.view.  Every view call site in the live code receives a
contiguous tensor, so the semantics coincides with a size-checked
reinterpretation of the row-major data. -/
def Tensor.view (t : Tensor) (ds : List VDim) : Except String Tensor := do
  let s ← resolveView errView errViewInfer errViewMulti t.data.length ds
  Except.ok { shape := s, data := t.data }

/-- torch Tensor.reshape (also copies when non-contiguous; on our
materialized data it is the same size-checked reinterpretation). -/
def Tensor.reshape (t : Tensor) (ds : List VDim) : Except String Tensor := do
  let s ← resolveView errReshape errReshapeInfer errReshapeMulti t.data.length ds
  Except.ok { shape := s, data := t.data }

/-- view with a plain target shape (used for `rel_pos.view(attn_weights.size())`
and `attn_weights.view(bsz, num_heads, tgt_len, src_len)`). -/
def Tensor.viewShape (t : Tensor) (s : List Nat) : Except String Tensor :=
  t.view (s.map VDim.fix)

/-- torch.cat([a, b], dim=1) for 3-axis tensors.  Every cat call site in
the live code concatenates the 3-axis cache view with the current
key/value, so only the 3-axis case is reachable with success; any other
rank combination errors, as torch does. -/
def cat1 (a b : Tensor) : Except String Tensor :=
  match a.shape, b.shape with
  | [a0, a1, a2], [b0, b1, b2] =>
    if a0 = b0 ∧ a2 = b2 then
      Except.ok { shape := [a0, a1 + b1, a2]
                  data := (allIdx [a0, a1 + b1, a2]).map (fun ix =>
                    let i := ix.getD 0 0
                    let r := ix.getD 1 0
                    let c := ix.getD 2 0
                    if r < a1 then a.get [i, r, c] else b.get [i, r - a1, c]) }
    else Except.error errCat
  | _, _ => Except.error errCat

/-- torch.stack([q, k, v], dim=2). -/
def stackDim2 (a b c : Tensor) : Except String Tensor :=
  if a.shape = b.shape ∧ b.shape = c.shape ∧ 2 ≤ a.shape.length then
    Except.ok { shape := a.shape.take 2 ++ 3 :: a.shape.drop 2
                data := (allIdx (a.shape.take 2 ++ 3 :: a.shape.drop 2)).map (fun ix =>
                  let which := ix.getD 2 0
                  let ix2 := ix.take 2 ++ ix.drop 3
                  if which = 0 then a.get ix2
                  else if which = 1 then b.get ix2 else c.get ix2) }
  else Except.error errStack

/-- torch Tensor.unsqueeze(d): insert a size-1 axis at position d. -/
def Tensor.unsqueeze (t : Tensor) (d : Nat) : Tensor :=
  { shape := t.shape.take d ++ 1 :: t.shape.drop d, data := t.data }

/-- Broadcast a tensor to a target shape (numpy right-aligned rules:
each source dimension must equal the target dimension or be 1). -/
def Tensor.broadcastTo (t : Tensor) (s : List Nat) : Except String Tensor :=
  if t.shape = s then Except.ok t
  else if t.shape.length ≤ s.length ∧
      ((t.shape.zip (s.drop (s.length - t.shape.length))).all
        (fun p => p.1 = p.2 || p.1 = 1)) then
    Except.ok { shape := s
                data := (allIdx s).map (fun ix =>
                  t.get (List.zipWith (fun i d => if d = 1 then 0 else i)
                    (ix.drop (s.length - t.shape.length)) t.shape)) }
  else Except.error errBroadcast

/-- Common broadcast shape of two shapes (right-aligned, per-dimension
maximum; compatible when the dimensions agree or one of them is 1). -/
def broadcastShapes (x y : List Nat) : Except String (List Nat) :=
  if x = y then Except.ok x
  else
    let n := max x.length y.length
    let xp := List.replicate (n - x.length) 1 ++ x
    let yp := List.replicate (n - y.length) 1 ++ y
    if (xp.zip yp).all (fun p => p.1 = p.2 || p.1 = 1 || p.2 = 1) then
      Except.ok ((xp.zip yp).map (fun p => max p.1 p.2))
    else Except.error errBroadcast

/-- torch Tensor.expand: -1 (VDim.infer) keeps an existing size and is
illegal for a new leading dimension; an existing dimension may only be
expanded when its current size is 1. -/
def Tensor.expand (t : Tensor) (ds : List VDim) : Except String Tensor :=
  if ds.length < t.shape.length then Except.error errExpandFew
  else do
    let pad := ds.length - t.shape.length
    let tgt ← ds.enum.mapM (fun p =>
      match p.2 with
      | VDim.fix n =>
        if p.1 < pad then Except.ok n
        else
          let cur := t.shape.getD (p.1 - pad) 0
          if cur = n ∨ cur = 1 then Except.ok n else Except.error errExpandSize
      | VDim.infer =>
        if p.1 < pad then Except.error errExpandNew
        else Except.ok (t.shape.getD (p.1 - pad) 0))
    t.broadcastTo tgt

/-- torch `a + b` with two-sided broadcasting. -/
def addB (a b : Tensor) : Except String Tensor := do
  let s ← broadcastShapes a.shape b.shape
  let a2 ← a.broadcastTo s
  let b2 ← b.broadcastTo s
  Except.ok { shape := s, data := List.zipWith (fun x y => x + y) a2.data b2.data }

/-- torch `a += b` (in-place): b is broadcast to a's shape. -/
def addInplace (a b : Tensor) : Except String Tensor := do
  let b2 ← b.broadcastTo a.shape
  Except.ok { shape := a.shape, data := List.zipWith (fun x y => x + y) a.data b2.data }

/-- Model of the float value float('-inf') used by masked_fill.  In the
live forward this fill is only reached on paths cut off earlier by the
UnboundLocalError gate (see kpmGate below), so no theorem depends on its
numeric value. -/
def negInf : ℚ := -(2 ^ 64)

/-- torch Tensor.masked_fill(mask.to(bool), float('-inf')): entries at
broadcast-true mask positions are replaced. -/
def maskedFill (t mask : Tensor) : Except String Tensor := do
  let m2 ← mask.broadcastTo t.shape
  Except.ok { shape := t.shape
              data := List.zipWith (fun x b => if b ≠ 0 then negInf else x) t.data m2.data }

/-- torch.bmm: batched matrix product of two 3-axis tensors. -/
def bmm (a b : Tensor) : Except String Tensor :=
  match a.shape, b.shape with
  | [ba, n, m], [bb, m2, p] =>
    if ba = bb ∧ m = m2 then
      Except.ok { shape := [ba, n, p]
                  data := (allIdx [ba, n, p]).map (fun ix =>
                    let i := ix.getD 0 0
                    let r := ix.getD 1 0
                    let c := ix.getD 2 0
                    ((List.range m).map (fun j => a.get [i, r, j] * b.get [i, j, c])).sum) }
    else Except.error errBmmShape
  | _, _ => Except.error errBmm3d

/-- Fuel-driven chunking of a flat list into rows of length n (the fuel
equals the list length at the entry point, which always suffices). -/
def chunksAux {α : Type} : Nat → Nat → List α → List (List α)
  | 0, _, _ => []
  | _ + 1, _, [] => []
  | fuel + 1, n, x :: xs => (x :: xs).take n :: chunksAux fuel n ((x :: xs).drop n)

/-- Split a flat list into consecutive rows of length n (last-axis rows
of a row-major tensor). -/
def chunks {α : Type} (n : Nat) (l : List α) : List (List α) :=
  chunksAux l.length n l

/-- Model of F.softmax on one last-axis row, with the exponential
supplied by the configuration (the float exp of the numeric library). -/
def softmaxRow (e : ℚ → ℚ) (row : List ℚ) : List ℚ :=
  let ex := row.map e
  ex.map (fun x => x / ex.sum)

/-- F.softmax(t, dim=-1, dtype=float32).type_as(t): softmax along the
last axis.  At both call sites the input is already float32, so the
dtype round-trip is the identity on values. -/
def softmaxLast (e : ℚ → ℚ) (t : Tensor) : Tensor :=
  match t.shape.getLast? with
  | none => t
  | some n => { shape := t.shape, data := ((chunks n t.data).map (softmaxRow e)).flatten }

/-- Model of nn.Linear(inF, outF) wrapped in the MultiwayWrapper: an
opaque affine transform on the last axis, exactly the Projection
Adapter contract of the spec (the per-token routing is external). -/
structure Linear where
  inF : Nat
  outF : Nat
  weight : Nat → Nat → ℚ
  bias : Nat → ℚ

/-- One output coordinate of the affine transform on one row. -/
def dotRow (L : Linear) (x : List ℚ) (j : Nat) : ℚ :=
  L.bias j + ((List.range L.inF).map (fun i => L.weight j i * x.getD i 0)).sum

/-- Apply the affine transform to the last axis of a tensor; errors if
the last axis does not match the expected input width, like torch. -/
def Linear.apply (L : Linear) (t : Tensor) : Except String Tensor :=
  match t.shape.getLast? with
  | none => Except.error errLinearScalar
  | some d =>
    if d = L.inF then
      Except.ok { shape := t.shape.dropLast ++ [L.outF]
                  data := ((chunks d t.data).map
                    (fun row => (List.range L.outF).map (dotRow L row))).flatten }
    else Except.error errLinear

/-- Extract the maximal element (by value, first occurrence on ties) of
an indexed row, together with the remaining pairs. -/
def selectMax : List (Nat × ℚ) → Option ((Nat × ℚ) × List (Nat × ℚ))
  | [] => none
  | p :: ps =>
    match selectMax ps with
    | none => some (p, [])
    | some (q, rest) => if p.2 < q.2 then some (q, p :: rest) else some (p, ps)

/-- The k largest pairs of an indexed row (torch.topk with sorted=False
returns the k largest entries in some order; ties are arbitrary, and
this model resolves them by earliest index). -/
def topkSel : Nat → List (Nat × ℚ) → List (Nat × ℚ)
  | 0, _ => []
  | k + 1, l =>
    match selectMax l with
    | none => []
    | some (p, rest) => p :: topkSel k rest

/-- One row of apply_pruning: torch.topk(row, k) selects the k largest
entries BY VALUE (no absolute value is taken in the source), a 0/1 mask
is scattered at the selected indices, and the row is multiplied by the
mask. -/
def pruneRow (k : Nat) (row : List ℚ) : List ℚ :=
  let chosen := (topkSel k row.enum).map Prod.fst
  let mask := row.enum.map (fun p => if chosen.contains p.1 then (1 : ℚ) else 0)
  List.zipWith (fun x y => x * y) row mask

/-- MultiheadAttention.apply_pruning (source lines 268-273):
k = max(int(tensor.shape[-1] * top_k), 1); python int() truncates toward
zero, which is the floor for the nonnegative products that arise here.
torch.topk raises when k exceeds the last dimension. -/
def apply_pruning (tensor : Tensor) (top_k : ℚ) : Except String Tensor :=
  match tensor.shape.getLast? with
  | none => Except.error errTopkDim
  | some n =>
    let k := max (Int.toNat (Int.floor ((n : ℚ) * top_k))) 1
    if n < k then Except.error errTopkRange
    else Except.ok { shape := tensor.shape
                     data := ((chunks n tensor.data).map (pruneRow k)).flatten }

/-- The incremental_state dictionary: optional prev_key / prev_value
entries of shape (batch, heads, accumulated-length, head-dim). -/
structure IncState where
  prev_key : Option Tensor
  prev_value : Option Tensor
deriving DecidableEq, Repr

/-- Model of the MultiheadAttention module configuration (the fields
set by __init__, source lines 221-266).  scaling is head_dim ** -0.5 in
the source, a float whose value is carried here as its rational float
value; no claim depends on it.  The collaborator fields (projections,
inner_attn_ln, dropout_module, xpos, flash_mha, exp, fp16) are the
opaque interfaces of the spec. -/
structure MultiheadAttention where
  embed_dim : Nat
  num_heads : Nat
  scaling : ℚ
  self_attention : Bool
  encoder_decoder_attention : Bool
  subln : Bool
  casual : Bool
  flash_attention : Bool
  q_proj : Linear
  k_proj : Linear
  v_proj : Linear
  out_proj : Linear
  inner_attn_ln : Tensor → Tensor
  dropout_module : Tensor → Tensor
  xpos_enabled : Bool
  xpos : Tensor → Nat → Bool → Tensor
  flash_mha : Tensor → Option Tensor → Tensor × Tensor
  exp : ℚ → ℚ
  fp16 : ℚ → ℚ

/-- head_dim = embed_dim // num_heads (source line 238). -/
def MultiheadAttention.head_dim (m : MultiheadAttention) : Nat :=
  m.embed_dim / m.num_heads

/-- Intermediate state threaded through the stages of forward. -/
structure Mid where
  bsz : Nat
  tgt_len : Nat
  embed_dim : Nat
  src_len : Nat
  q : Tensor
  k : Tensor
  v : Tensor
deriving Repr

/-- Python unpacking `a, b, c = t.size()`: requires a 3-axis tensor. -/
def size3 (t : Tensor) : Except String (Nat × Nat × Nat) :=
  match t.shape with
  | [a, b, c] => Except.ok (a, b, c)
  | _ => Except.error errUnpack

/-- Source lines 286-310: shape unpacking and the assert gates, the
conditional (dead) projection under `if not precomputed_kv`, the
unconditional q/k/v projections, the scaling of q, and the pruning of
q, k and v.  Note that line 293 `assert bsz, src_len == value.shape[:2]`
only asserts the truthiness of bsz: the tuple comparison is the assert
MESSAGE, so the value batch size is never checked. -/
def checkAndProject (m : MultiheadAttention) (query key value : Tensor)
    (precomputed_kv : Bool) : Except String Mid := do
  let (bsz, tgt_len, embed_dim) ← size3 query
  -- line 287 sets src_len = tgt_len; line 290 immediately overwrites it
  if embed_dim ≠ m.embed_dim then throw errQueryDim
  let (key_bsz, src_len, _kdim) ← size3 key
  if key_bsz ≠ bsz then throw errKeyBatch
  -- line 292 `assert value is not None`: value is always a tensor here
  if bsz = 0 then throw errBszZero
  if ¬ precomputed_kv then
    let _k0 ← m.k_proj.apply key
    let _v0 ← m.v_proj.apply value
  let q ← m.q_proj.apply query
  let k ← m.k_proj.apply key
  let v ← m.v_proj.apply value
  let q := q.scale m.scaling
  let q ← apply_pruning q (1 / 2)
  let k ← apply_pruning k (1 / 2)
  let v ← apply_pruning v (1 / 2)
  Except.ok { bsz := bsz, tgt_len := tgt_len, embed_dim := embed_dim
              src_len := src_len, q := q, k := k, v := v }

/-- Source lines 313-330: the flash branch reshapes q/k/v into 4-axis
(batch, heads, len, head_dim) tensors, stacks them and calls the
FlashMHA collaborator, whose outputs (attn_output, attn_output_weights)
are never used afterwards; the reference branch reshapes q/k/v into
(batch*heads, len, head_dim), with the key and value reshapes using
tgt_len (lines 329-330) rather than src_len. -/
def headReshape (m : MultiheadAttention) (key_padding_mask : Option Tensor)
    (mid : Mid) : Except String Mid := do
  if m.flash_attention then
    let q ← mid.q.view [VDim.fix mid.bsz, VDim.fix mid.tgt_len,
      VDim.fix m.num_heads, VDim.fix m.head_dim]
    let q := q.transpose 1 2
    let k ← mid.k.view [VDim.fix mid.bsz, VDim.fix mid.src_len,
      VDim.fix m.num_heads, VDim.fix m.head_dim]
    let k := k.transpose 1 2
    let v ← mid.v.view [VDim.fix mid.bsz, VDim.fix mid.src_len,
      VDim.fix m.num_heads, VDim.fix m.head_dim]
    let v := v.transpose 1 2
    let qkv ← stackDim2 q k v
    let _dead := m.flash_mha qkv key_padding_mask
    Except.ok { mid with q := q, k := k, v := v }
  else
    let q ← mid.q.view [VDim.fix mid.bsz, VDim.fix mid.tgt_len,
      VDim.fix m.num_heads, VDim.fix m.head_dim]
    let q := q.transpose 1 2
    let k ← mid.k.view [VDim.fix mid.bsz, VDim.fix mid.src_len,
      VDim.fix m.num_heads, VDim.fix m.head_dim]
    let k := k.transpose 1 2
    let v ← mid.v.view [VDim.fix mid.bsz, VDim.fix mid.src_len,
      VDim.fix m.num_heads, VDim.fix m.head_dim]
    let v := v.transpose 1 2
    let q ← q.reshape [VDim.fix (mid.bsz * m.num_heads), VDim.fix mid.tgt_len,
      VDim.fix m.head_dim]
    let k ← k.reshape [VDim.fix (mid.bsz * m.num_heads), VDim.fix mid.tgt_len,
      VDim.fix m.head_dim]
    let v ← v.reshape [VDim.fix (mid.bsz * m.num_heads), VDim.fix mid.tgt_len,
      VDim.fix m.head_dim]
    Except.ok { mid with q := q, k := k, v := v }

/-- Source lines 332-338: `if key_padding_mask is not None:` followed by
`attn_weights = attn_weights.view(...)`.  At this point of forward no
branch has assigned the local attn_weights (the flash branch binds
attn_output / attn_output_weights), so python raises
UnboundLocalError on the first statement of the block whenever a
key-padding mask is supplied. -/
def kpmGate (key_padding_mask : Option Tensor) : Except String Unit :=
  match key_padding_mask with
  | some _ => Except.error errUnbound
  | none => Except.ok ()

/-- Source lines 342-358: the incremental-state merge.  When the cache
holds prev_key, both stored tensors are re-viewed to
(batch*heads, -1, head_dim), concatenated with the fresh key/value along
the sequence axis, and the cache is overwritten with the
(batch, heads, -1, head_dim) views of the results; src_len becomes
k.size(1).  Missing prev_value with prev_key present is a KeyError. -/
def mergeCache (m : MultiheadAttention) (mid : Mid)
    (incremental_state : Option IncState) :
    Except String (Mid × Option IncState) := do
  match incremental_state with
  | none => Except.ok (mid, none)
  | some st => do
    let (k, v) ← (match st.prev_key with
      | some pk => do
        let pv ← (match st.prev_value with
          | some pv => Except.ok pv
          | none => Except.error errKeyErrorPrevValue)
        let pk3 ← pk.view [VDim.fix (mid.bsz * m.num_heads), VDim.infer,
          VDim.fix m.head_dim]
        let pv3 ← pv.view [VDim.fix (mid.bsz * m.num_heads), VDim.infer,
          VDim.fix m.head_dim]
        let k ← cat1 pk3 mid.k
        let v ← cat1 pv3 mid.v
        Except.ok (k, v)
      | none => Except.ok (mid.k, mid.v))
    let pk4 ← k.view [VDim.fix mid.bsz, VDim.fix m.num_heads, VDim.infer,
      VDim.fix m.head_dim]
    let pv4 ← v.view [VDim.fix mid.bsz, VDim.fix m.num_heads, VDim.infer,
      VDim.fix m.head_dim]
    let src_len := k.shape.getD 1 0
    Except.ok ({ mid with k := k, v := v, src_len := src_len },
      some { prev_key := some pk4, prev_value := some pv4 })

/-- Source lines 360-366: the xpos relative-position encoding, applied
to the key with offset 0 and downscale, and to the query with offset
src_len - 1 when a cache handle was supplied, else 0. -/
def applyXpos (m : MultiheadAttention) (inc0 : Option IncState) (mid : Mid) : Mid :=
  if m.xpos_enabled then
    let offset := if inc0.isSome then mid.src_len - 1 else 0
    { mid with k := m.xpos mid.k 0 true, q := m.xpos mid.q offset false }
  else mid

/-- Source lines 368-378: raw scores by bmm, the additive attention
mask (viewed to 4 axes, the mask unsqueezed and expanded over heads,
added in place), and the key-padding masked_fill.  The masked_fill
block only executes when a key-padding mask is present, which kpmGate
has already turned into an error, so it is dead in forward. -/
def scoreStage (m : MultiheadAttention) (mid : Mid)
    (attn_mask key_padding_mask : Option Tensor) : Except String Tensor := do
  let aw ← bmm mid.q (mid.k.transpose 1 2)
  let aw ← (match attn_mask with
    | some am => do
      let aw4 ← aw.viewShape [mid.bsz, m.num_heads, mid.tgt_len, mid.src_len]
      let ame ← (am.unsqueeze 1).expand
        [VDim.infer, VDim.fix m.num_heads, VDim.infer, VDim.infer]
      addInplace aw4 ame
    | none => Except.ok aw)
  let aw ← (match key_padding_mask with
    | some pm => maskedFill aw ((pm.unsqueeze 1).unsqueeze 2)
    | none => Except.ok aw)
  Except.ok aw

/-- Source lines 380-389: softmax along the source axis, then (if
present) the relative bias viewed to the weight shape and added to the
NORMALIZED weights, then the conversion of the weights to float16
(modeled by the fp16 rounding collaborator). -/
def normalizeBias (m : MultiheadAttention) (rel_pos : Option Tensor)
    (aw : Tensor) : Except String Tensor := do
  let aw := softmaxLast m.exp aw
  let aw ← (match rel_pos with
    | some rp => do
      let rp2 ← rp.viewShape aw.shape
      addB aw rp2
    | none => Except.ok aw)
  Except.ok (aw.map m.fp16)

/-- Source lines 395-404: the probabilities (already cast back to
float32, an exact widening and hence the identity on values) are
bmm-aggregated against the values, un-reshaped to
(batch, tgt_len, embed_dim), optionally layer-normalized, and projected
through out_proj. -/
def outTail (m : MultiheadAttention) (bsz tgt_len embed_dim : Nat)
    (attn_probs v : Tensor) : Except String Tensor := do
  let attn ← bmm attn_probs v
  let attn := attn.transpose 0 1
  let attn ← attn.reshape [VDim.fix tgt_len, VDim.fix bsz, VDim.fix embed_dim]
  let attn := attn.transpose 0 1
  let attn := if m.subln && m.self_attention then m.inner_attn_ln attn else attn
  m.out_proj.apply attn

/-- Source lines 392-410: dropout on the (float16) weights, the output
tail, and the returned weight tensor
attn_weights.view(bsz, num_heads, tgt_len, src_len).transpose(1, 0). -/
def finalize (m : MultiheadAttention) (mid : Mid) (aw : Tensor) :
    Except String (Tensor × Tensor) := do
  let attn_probs := m.dropout_module aw
  let attn ← outTail m mid.bsz mid.tgt_len mid.embed_dim attn_probs mid.v
  let w4 ← aw.viewShape [mid.bsz, m.num_heads, mid.tgt_len, mid.src_len]
  Except.ok (attn, w4.transpose 1 0)

/-- MultiheadAttention.forward (source lines 275-410), as the chain of
its stages.  The mutated incremental_state dictionary is returned as
the third component. -/
def forward (m : MultiheadAttention) (query key value : Tensor)
    (incremental_state : Option IncState)
    (key_padding_mask attn_mask rel_pos : Option Tensor)
    (precomputed_kv : Bool) :
    Except String (Tensor × Tensor × Option IncState) := do
  let mid ← checkAndProject m query key value precomputed_kv
  let mid ← headReshape m key_padding_mask mid
  let _ ← kpmGate key_padding_mask
  let (mid, inc2) ← mergeCache m mid incremental_state
  let mid := applyXpos m incremental_state mid
  let aw ← scoreStage m mid attn_mask key_padding_mask
  let aw ← normalizeBias m rel_pos aw
  let (attn, w) ← finalize m mid aw
  Except.ok (attn, w, inc2)

/-- Construction-time and collaborator-contract well-formedness of an
engine configuration: positive width and head count, the exact head
partition (the HeadView invariant of the spec, a construction-time
precondition), the projection widths as built by __init__
(nn.Linear(embed_dim, embed_dim) for all four roles), and the
shape-preservation contracts of the dropout, layer-norm and position
encoder collaborators stated in the spec's component interfaces. -/
structure MWF (m : MultiheadAttention) : Prop where
  embed_pos : 1 ≤ m.embed_dim
  heads_pos : 1 ≤ m.num_heads
  head_div : m.num_heads * m.head_dim = m.embed_dim
  q_in : m.q_proj.inF = m.embed_dim
  q_out : m.q_proj.outF = m.embed_dim
  k_in : m.k_proj.inF = m.embed_dim
  k_out : m.k_proj.outF = m.embed_dim
  v_in : m.v_proj.inF = m.embed_dim
  v_out : m.v_proj.outF = m.embed_dim
  o_in : m.out_proj.inF = m.embed_dim
  o_out : m.out_proj.outF = m.embed_dim
  drop_shape : ∀ t, (m.dropout_module t).shape = t.shape
  drop_len : ∀ t, (m.dropout_module t).data.length = t.data.length
  ln_shape : ∀ t, (m.inner_attn_ln t).shape = t.shape
  ln_len : ∀ t, (m.inner_attn_ln t).data.length = t.data.length
  xpos_shape : ∀ t o d, (m.xpos t o d).shape = t.shape
  xpos_len : ∀ t o d, (m.xpos t o d).data.length = t.data.length

/-- Shape of the second returned array (the attention weights) of a
forward result, or [] on error. -/
def weightShape (r : Except String (Tensor × Tensor × Option IncState)) : List Nat :=
  match r with
  | Except.ok (_, w, _) => w.shape
  | Except.error _ => []

/-- Identity projection adapter of width n. -/
def idLin (n : Nat) : Linear :=
  { inF := n, outF := n, weight := fun j i => if j = i then 1 else 0, bias := fun _ => 0 }

/-- Reference-path engine fixture: one head, width one, identity
collaborators, dropout in eval mode (identity), no xpos, no subln. -/
def mRef : MultiheadAttention :=
  { embed_dim := 1, num_heads := 1, scaling := 1, self_attention := true
    encoder_decoder_attention := false, subln := false, casual := false
    flash_attention := false, q_proj := idLin 1, k_proj := idLin 1, v_proj := idLin 1
    out_proj := idLin 1, inner_attn_ln := id, dropout_module := id
    xpos_enabled := false, xpos := fun t _ _ => t
    flash_mha := fun _ _ => (⟨[], []⟩, ⟨[], []⟩), exp := fun _ => 1, fp16 := id }

/-- The same engine with the fused-kernel path enabled. -/
def mFlash : MultiheadAttention := { mRef with flash_attention := true }

/-- The same engine with a value projection that doubles its input. -/
def mDblV : MultiheadAttention :=
  { mRef with v_proj :=
      { inF := 1, outF := 1, weight := fun _ _ => 2, bias := fun _ => 0 } }

/-- Two-head fixture of width two (head_dim 1), identity collaborators. -/
def m2h : MultiheadAttention :=
  { mRef with
      embed_dim := 2
      num_heads := 2
      q_proj := idLin 2
      k_proj := idLin 2
      v_proj := idLin 2
      out_proj := idLin 2 }

/-- Concrete input tensors for the fixtures. -/
def t111 : Tensor := ⟨[1, 1, 1], [2]⟩

def pm11 : Tensor := ⟨[1, 1], [1]⟩

def rp111 : Tensor := ⟨[1, 1, 1], [10]⟩

def am11 : Tensor := ⟨[1, 1, 1], [3]⟩

def q8 : Tensor := ⟨[1, 1, 2], [1, 2]⟩

def q141 : Tensor := ⟨[1, 4, 1], [1, 2, 3, 4]⟩

def k241 : Tensor := ⟨[2, 4, 1], [1, 2, 3, 4, 5, 6, 7, 8]⟩

def v221 : Tensor := ⟨[2, 2, 1], [5, 6, 7, 8]⟩

/-- Concrete intermediate state and cache tensors for the cache-merge
witness. -/
def midW : Mid := ⟨1, 1, 1, 1, ⟨[1, 1, 1], [7]⟩, ⟨[1, 1, 1], [2]⟩, ⟨[1, 1, 1], [3]⟩⟩

def pkW : Tensor := ⟨[1, 1, 1, 1], [9]⟩

def pvW : Tensor := ⟨[1, 1, 1, 1], [8]⟩

end TSF

deriving instance DecidableEq for Except

namespace TSF

/-- chunksAux of the empty list is empty for any fuel. -/
theorem chunksAux_nil {α : Type} (f n : Nat) : chunksAux f n ([] : List α) = [] := by
  cases f <;> rfl

/-- chunksAux computes chunks once the fuel covers the list length
(n at least 1 guarantees progress). -/
theorem chunksAux_eq_chunks {α : Type} {n : Nat} (hn : 1 ≤ n) :
    ∀ (f : Nat) (l : List α), l.length ≤ f → chunksAux f n l = chunks n l := by
  intro f
  induction f using Nat.strong_induction_on with
  | _ f ih =>
    intro l hf
    cases l with
    | nil => rw [chunksAux_nil, chunks, List.length_nil, chunksAux_nil]
    | cons x xs =>
      cases f with
      | zero => simp at hf
      | succ g =>
        have hgx : xs.length ≤ g := by
          simp only [List.length_cons] at hf
          omega
        have hdg : ((x :: xs).drop n).length ≤ g := by
          rw [List.length_drop, List.length_cons]
          omega
        have hdx : ((x :: xs).drop n).length ≤ xs.length := by
          rw [List.length_drop, List.length_cons]
          omega
        have h1 : chunksAux (g + 1) n (x :: xs)
            = (x :: xs).take n :: chunks n ((x :: xs).drop n) := by
          show (x :: xs).take n :: chunksAux g n ((x :: xs).drop n) = _
          rw [ih g (by omega) _ hdg]
        have h2 : chunks n (x :: xs)
            = (x :: xs).take n :: chunks n ((x :: xs).drop n) := by
          have h3 : chunks n (x :: xs)
              = (x :: xs).take n :: chunksAux xs.length n ((x :: xs).drop n) := rfl
          rw [h3, ih xs.length (by omega) ((x :: xs).drop n) hdx]
        rw [h1, h2]

theorem chunks_nil {α : Type} (n : Nat) : chunks n ([] : List α) = [] := by
  simp [chunks, chunksAux_nil]

/-- Unfolding equation for chunks on a nonempty list. -/
theorem chunks_cons {α : Type} {n : Nat} (hn : 1 ≤ n) (l : List α) (hl : l ≠ []) :
    chunks n l = l.take n :: chunks n (l.drop n) := by
  cases l with
  | nil => exact absurd rfl hl
  | cons x xs =>
    have hdx : ((x :: xs).drop n).length ≤ xs.length := by
      rw [List.length_drop, List.length_cons]
      omega
    have h3 : chunks n (x :: xs)
        = (x :: xs).take n :: chunksAux xs.length n ((x :: xs).drop n) := rfl
    rw [h3, chunksAux_eq_chunks hn xs.length ((x :: xs).drop n) hdx]

/-- Flattening the chunks recovers the list. -/
theorem chunks_flatten {α : Type} {n : Nat} (hn : 1 ≤ n) (l : List α) :
    (chunks n l).flatten = l := by
  suffices h : ∀ (len : Nat) (l2 : List α), l2.length = len → (chunks n l2).flatten = l2 by
    exact h l.length l rfl
  intro len
  induction len using Nat.strong_induction_on with
  | _ len ih =>
    intro l2 hL
    cases l2 with
    | nil => rw [chunks_nil]; rfl
    | cons x xs =>
      rw [chunks_cons hn _ (by simp), List.flatten_cons]
      have hlt : ((x :: xs).drop n).length < len := by
        subst hL
        rw [List.length_drop, List.length_cons]
        omega
      rw [ih _ hlt _ rfl]
      exact List.take_append_drop n (x :: xs)

/-- When n divides the length, chunks yields length/n rows of length n. -/
theorem chunks_rows {α : Type} {n : Nat} (hn : 1 ≤ n) :
    ∀ (c : Nat) (l : List α), l.length = c * n →
      (chunks n l).length = c ∧ ∀ r ∈ chunks n l, r.length = n := by
  intro c
  induction c with
  | zero =>
    intro l hl
    rw [Nat.zero_mul] at hl
    have hnil : l = [] := List.length_eq_zero.mp hl
    subst hnil
    rw [chunks_nil]
    exact ⟨rfl, by intro r hr; cases hr⟩
  | succ c ih =>
    intro l hl
    rw [Nat.succ_mul] at hl
    have hne : l ≠ [] := by
      intro h
      subst h
      simp only [List.length_nil] at hl
      omega
    rw [chunks_cons hn l hne]
    have htake : (l.take n).length = n := by
      rw [List.length_take]
      omega
    have hdrop : (l.drop n).length = c * n := by
      rw [List.length_drop]
      omega
    obtain ⟨h1, h2⟩ := ih (l.drop n) hdrop
    refine ⟨by simp [h1], ?_⟩
    intro r hr
    rcases List.mem_cons.mp hr with h | h
    · rw [h]; exact htake
    · exact h2 r h

/-- chunks is a left inverse of flatten on uniform rows. -/
theorem chunks_of_rows {α : Type} {n : Nat} (hn : 1 ≤ n) :
    ∀ rs : List (List α), (∀ r ∈ rs, r.length = n) → chunks n rs.flatten = rs := by
  intro rs
  induction rs with
  | nil => intro _; rw [List.flatten_nil]; exact chunks_nil n
  | cons r rs ih =>
    intro h
    have hr : r.length = n := h r (List.mem_cons_self r rs)
    rw [List.flatten_cons]
    have hne : r ++ rs.flatten ≠ [] := by
      intro hh
      have : r = [] := (List.append_eq_nil.mp hh).1
      rw [this] at hr
      simp only [List.length_nil] at hr
      omega
    have htake : (r ++ rs.flatten).take n = r := by
      rw [← hr]
      exact List.take_left r rs.flatten
    have hdrop : (r ++ rs.flatten).drop n = rs.flatten := by
      rw [← hr]
      exact List.drop_left r rs.flatten
    rw [chunks_cons hn _ hne, htake, hdrop]
    rw [ih (fun r2 h2 => h (r2) (List.mem_cons_of_mem r h2))]

/-- Length of a flatten after a row-length-preserving map. -/
theorem flatten_map_len {α β : Type} (f : List α → List β) :
    ∀ rs : List (List α), (∀ r ∈ rs, (f r).length = r.length) →
      ((rs.map f).flatten).length = rs.flatten.length := by
  intro rs
  induction rs with
  | nil => intro _; rfl
  | cons r rs ih =>
    intro h
    simp only [List.map_cons, List.flatten_cons, List.length_append]
    rw [h r (List.mem_cons_self r rs), ih (fun r2 h2 => h r2 (List.mem_cons_of_mem r h2))]

/-- Length of a flatten after a map to constant-width rows. -/
theorem flatten_map_const {α β : Type} (f : List α → List β) (w : Nat) :
    ∀ rs : List (List α), (∀ r ∈ rs, (f r).length = w) →
      ((rs.map f).flatten).length = rs.length * w := by
  intro rs
  induction rs with
  | nil => intro _; simp
  | cons r rs ih =>
    intro h
    simp only [List.map_cons, List.flatten_cons, List.length_append, List.length_cons]
    rw [h r (List.mem_cons_self r rs), ih (fun r2 h2 => h r2 (List.mem_cons_of_mem r h2))]
    ring

theorem sum_map_const {β : Type} (l : List β) (c : Nat) :
    (l.map (fun _ => c)).sum = l.length * c := by
  induction l with
  | nil => simp
  | cons x xs ih =>
    simp only [List.map_cons, List.sum_cons, List.length_cons, ih]
    ring

/-- allIdx enumerates exactly prod-many indices. -/
theorem allIdx_length : ∀ s : List Nat, (allIdx s).length = s.prod := by
  intro s
  induction s with
  | nil => rfl
  | cons d ds ih =>
    show (((List.range d).map (fun i => (allIdx ds).map (fun ix => i :: ix))).flatten).length = _
    rw [List.length_flatten, List.map_map]
    have hmap : ((List.range d).map
          (List.length ∘ fun i => (allIdx ds).map (fun ix => i :: ix)))
        = (List.range d).map (fun _ => ds.prod) := by
      apply List.map_congr_left
      intro i _
      simp [ih]
    rw [hmap, sum_map_const, List.length_range, List.prod_cons]

/-- transpose swaps the shape and keeps the element count. -/
theorem transpose_shape (t : Tensor) (i j : Nat) :
    (t.transpose i j).shape = swapAt t.shape i j := rfl

theorem transpose_length (t : Tensor) (i j : Nat) :
    (t.transpose i j).data.length = (swapAt t.shape i j).prod := by
  show ((allIdx (swapAt t.shape i j)).map _).length = _
  rw [List.length_map, allIdx_length]

theorem vInfers_map_fix : ∀ s : List Nat, vInfers (s.map VDim.fix) = 0 := by
  intro s
  induction s with
  | nil => rfl
  | cons d ds ih => show vInfers (VDim.fix d :: ds.map VDim.fix) = 0; simpa [vInfers]

theorem vKnown_map_fix : ∀ s : List Nat, vKnown (s.map VDim.fix) = s.prod := by
  intro s
  induction s with
  | nil => rfl
  | cons d ds ih =>
    show vKnown (VDim.fix d :: ds.map VDim.fix) = _
    rw [vKnown, ih, List.prod_cons]

theorem map_unfix (q : Nat) : ∀ s : List Nat,
    ((s.map VDim.fix).map (fun d => match d with | VDim.fix n => n | VDim.infer => q)) = s := by
  intro s
  induction s with
  | nil => rfl
  | cons d ds ih => simp only [List.map_cons, ih]

/-- Success of a view to an explicit shape. -/
theorem viewShape_ok {t : Tensor} {s : List Nat} (h : s.prod = t.data.length) :
    t.viewShape s = Except.ok { shape := s, data := t.data } := by
  unfold Tensor.viewShape Tensor.view resolveView
  rw [vInfers_map_fix, vKnown_map_fix, if_pos rfl, if_pos h]
  show Except.ok _ = _
  rw [map_unfix]

theorem viewShape_err {t : Tensor} {s : List Nat} (h : ¬ s.prod = t.data.length) :
    t.viewShape s = Except.error errView := by
  unfold Tensor.viewShape Tensor.view resolveView
  rw [vInfers_map_fix, vKnown_map_fix, if_pos rfl, if_neg h]
  rfl

/-- resolveView with no -1 and matching count succeeds. -/
theorem resolveView_fix (e1 e2 e3 : String) (total : Nat) (ds : List VDim)
    (hI : vInfers ds = 0) (hK : vKnown ds = total) :
    resolveView e1 e2 e3 total ds
      = Except.ok (ds.map (fun d => match d with | VDim.fix n => n | VDim.infer => 0)) := by
  unfold resolveView
  rw [hI, if_pos rfl, hK, if_pos rfl]

/-- resolveView with no -1 and a count mismatch errors. -/
theorem resolveView_fix_err (e1 e2 e3 : String) (total : Nat) (ds : List VDim)
    (hI : vInfers ds = 0) (hK : vKnown ds ≠ total) :
    resolveView e1 e2 e3 total ds = Except.error e1 := by
  unfold resolveView
  rw [hI, if_pos rfl, if_neg hK]

/-- resolveView with exactly one -1 infers the missing dimension. -/
theorem resolveView_infer1 (e1 e2 e3 : String) (total known L : Nat) (ds : List VDim)
    (hI : vInfers ds = 1) (hK : vKnown ds = known) (hpos : 0 < known)
    (h : total = known * L) :
    resolveView e1 e2 e3 total ds
      = Except.ok (ds.map (fun d => match d with | VDim.fix n => n | VDim.infer => L)) := by
  have hdiv : total / known = L := by
    rw [h]
    exact Nat.mul_div_cancel_left L hpos
  unfold resolveView
  rw [hI, if_neg (by decide), if_pos rfl, hK]
  simp only [hdiv]
  rw [if_neg (Nat.pos_iff_ne_zero.mp hpos), if_pos h.symm]

theorem view_fix3_ok {t : Tensor} {a b c : Nat} (h : a * (b * (c * 1)) = t.data.length) :
    t.view [VDim.fix a, VDim.fix b, VDim.fix c]
      = Except.ok { shape := [a, b, c], data := t.data } := by
  unfold Tensor.view
  rw [resolveView_fix errView errViewInfer errViewMulti t.data.length
    [VDim.fix a, VDim.fix b, VDim.fix c] rfl h]
  rfl

theorem view_fix4_ok {t : Tensor} {a b c d : Nat}
    (h : a * (b * (c * (d * 1))) = t.data.length) :
    t.view [VDim.fix a, VDim.fix b, VDim.fix c, VDim.fix d]
      = Except.ok { shape := [a, b, c, d], data := t.data } := by
  unfold Tensor.view
  rw [resolveView_fix errView errViewInfer errViewMulti t.data.length
    [VDim.fix a, VDim.fix b, VDim.fix c, VDim.fix d] rfl h]
  rfl

theorem reshape_fix3_ok {t : Tensor} {a b c : Nat}
    (h : a * (b * (c * 1)) = t.data.length) :
    t.reshape [VDim.fix a, VDim.fix b, VDim.fix c]
      = Except.ok { shape := [a, b, c], data := t.data } := by
  unfold Tensor.reshape
  rw [resolveView_fix errReshape errReshapeInfer errReshapeMulti t.data.length
    [VDim.fix a, VDim.fix b, VDim.fix c] rfl h]
  rfl

theorem reshape_fix3_err {t : Tensor} {a b c : Nat}
    (h : a * (b * (c * 1)) ≠ t.data.length) :
    t.reshape [VDim.fix a, VDim.fix b, VDim.fix c] = Except.error errReshape := by
  unfold Tensor.reshape
  rw [resolveView_fix_err errReshape errReshapeInfer errReshapeMulti t.data.length
    [VDim.fix a, VDim.fix b, VDim.fix c] rfl h]
  rfl

theorem view_infer3_ok {t : Tensor} {a c L : Nat} (hpos : 0 < a * (c * 1))
    (h : t.data.length = a * (c * 1) * L) :
    t.view [VDim.fix a, VDim.infer, VDim.fix c]
      = Except.ok { shape := [a, L, c], data := t.data } := by
  unfold Tensor.view
  rw [resolveView_infer1 errView errViewInfer errViewMulti t.data.length
    (a * (c * 1)) L [VDim.fix a, VDim.infer, VDim.fix c] rfl rfl hpos h]
  rfl

theorem view_infer4_ok {t : Tensor} {a b d L : Nat} (hpos : 0 < a * (b * (d * 1)))
    (h : t.data.length = a * (b * (d * 1)) * L) :
    t.view [VDim.fix a, VDim.fix b, VDim.infer, VDim.fix d]
      = Except.ok { shape := [a, b, L, d], data := t.data } := by
  unfold Tensor.view
  rw [resolveView_infer1 errView errViewInfer errViewMulti t.data.length
    (a * (b * (d * 1))) L [VDim.fix a, VDim.fix b, VDim.infer, VDim.fix d] rfl rfl hpos h]
  rfl

/-- bmm on well-shaped 3-axis operands succeeds with the product shape. -/
theorem bmm_ok {a b : Tensor} {B n k p : Nat}
    (ha : a.shape = [B, n, k]) (hb : b.shape = [B, k, p]) :
    ∃ u, bmm a b = Except.ok u ∧ u.shape = [B, n, p]
      ∧ u.data.length = ([B, n, p] : List Nat).prod := by
  have hmain : bmm a b = Except.ok
      { shape := [B, n, p]
        data := (allIdx [B, n, p]).map (fun ix =>
          ((List.range k).map (fun j => a.get [ix.getD 0 0, ix.getD 1 0, j]
            * b.get [ix.getD 0 0, j, ix.getD 2 0])).sum) } := by
    unfold bmm
    rw [ha, hb]
    simp
  refine ⟨_, hmain, rfl, ?_⟩
  show ((allIdx [B, n, p]).map _).length = _
  rw [List.length_map, allIdx_length]

/-- bmm on a 4-axis first operand raises the dimensionality error. -/
theorem bmm_err4 {a b : Tensor} {w x y z : Nat} (ha : a.shape = [w, x, y, z]) :
    bmm a b = Except.error errBmm3d := by
  unfold bmm
  rw [ha]

/-- Linear.apply succeeds exactly on a matching last axis. -/
theorem apply_ok {L : Linear} {t : Tensor} (h : t.shape.getLast? = some L.inF) :
    L.apply t = Except.ok
      { shape := t.shape.dropLast ++ [L.outF]
        data := ((chunks L.inF t.data).map
          (fun row => (List.range L.outF).map (dotRow L row))).flatten } := by
  unfold Linear.apply
  rw [h]
  simp

/-- Linear.apply on a 3-axis well-formed input: success, shape and
well-formedness of the output. -/
theorem apply3_ok {L : Linear} {t : Tensor} {a b c : Nat}
    (hs : t.shape = [a, b, c]) (hc : c = L.inF) (h1 : 1 ≤ c) (hwf : t.WF) :
    ∃ u, L.apply t = Except.ok u ∧ u.shape = [a, b, L.outF] ∧ u.WF := by
  have hlast : t.shape.getLast? = some L.inF := by rw [hs, ← hc]; rfl
  refine ⟨_, apply_ok hlast, ?_, ?_⟩
  · rw [hs]; rfl
  · show (((chunks L.inF t.data).map _).flatten).length = _
    have hrows : ∀ r ∈ chunks L.inF t.data,
        ((List.range L.outF).map (dotRow L r)).length = L.outF := by
      intro r _
      rw [List.length_map, List.length_range]
    rw [flatten_map_const _ L.outF _ hrows]
    have hlen : t.data.length = (a * b) * L.inF := by
      rw [hwf, hs]
      simp only [List.prod_cons, List.prod_nil, hc]
      ring
    obtain ⟨hcount, _⟩ := chunks_rows (by omega : 1 ≤ L.inF) (a * b) t.data hlen
    rw [hcount, hs]
    simp only [List.dropLast, List.prod_cons, List.prod_nil, List.prod_append]
    ring

theorem pruneRow_length (k : Nat) (row : List ℚ) :
    (pruneRow k row).length = row.length := by
  unfold pruneRow
  rw [List.length_zipWith, List.length_map, List.enum_length]
  exact Nat.min_self _

/-- The k computed by apply_pruning never exceeds the last dimension
when the ratio is at most 1 and the dimension is positive. -/
theorem prune_k_le {n : Nat} {tk : ℚ} (h1 : 1 ≤ n) (ht : tk ≤ 1) :
    max (Int.toNat (Int.floor ((n : ℚ) * tk))) 1 ≤ n := by
  refine max_le ?_ h1
  have h2 : ((n : ℚ) * tk) ≤ (n : ℚ) :=
    mul_le_of_le_one_right (Nat.cast_nonneg n) ht
  have h3 : Int.floor ((n : ℚ) * tk) ≤ (n : ℤ) := by
    calc Int.floor ((n : ℚ) * tk) ≤ Int.floor ((n : ℚ)) := Int.floor_le_floor h2
    _ = (n : ℤ) := Int.floor_natCast n
  exact Int.toNat_le.mpr h3

/-- apply_pruning on a positive last dimension with ratio at most 1:
success with the per-row top-k masking, preserving shape and length. -/
theorem apply_pruning_ok (tk : ℚ) {t : Tensor} {n : Nat}
    (hn : t.shape.getLast? = some n) (h1 : 1 ≤ n) (ht : tk ≤ 1) :
    apply_pruning t tk = Except.ok
      { shape := t.shape
        data := ((chunks n t.data).map
          (pruneRow (max (Int.toNat (Int.floor ((n : ℚ) * tk))) 1))).flatten } := by
  unfold apply_pruning
  rw [hn]
  have hk := prune_k_le h1 ht
  simp only []
  rw [if_neg (by omega)]

/-- apply_pruning existential form with shape and length preservation. -/
theorem apply_pruning_spec3 (tk : ℚ) {t : Tensor} {n : Nat}
    (hn : t.shape.getLast? = some n) (h1 : 1 ≤ n) (ht : tk ≤ 1) :
    ∃ u, apply_pruning t tk = Except.ok u ∧ u.shape = t.shape
      ∧ u.data.length = t.data.length := by
  refine ⟨_, apply_pruning_ok tk hn h1 ht, rfl, ?_⟩
  show (((chunks n t.data).map _).flatten).length = _
  rw [flatten_map_len _ _ (fun r _ => pruneRow_length _ r)]
  rw [chunks_flatten (by omega) t.data]

/-- cat1 on two 3-axis tensors agreeing off the sequence axis. -/
theorem cat1_ok {a b : Tensor} {x p q z : Nat}
    (ha : a.shape = [x, p, z]) (hb : b.shape = [x, q, z]) :
    ∃ u, cat1 a b = Except.ok u ∧ u.shape = [x, p + q, z]
      ∧ u.data.length = ([x, p + q, z] : List Nat).prod := by
  have hmain : cat1 a b = Except.ok
      { shape := [x, p + q, z]
        data := (allIdx [x, p + q, z]).map (fun ix =>
          if ix.getD 1 0 < p then a.get [ix.getD 0 0, ix.getD 1 0, ix.getD 2 0]
          else b.get [ix.getD 0 0, ix.getD 1 0 - p, ix.getD 2 0]) } := by
    unfold cat1
    rw [ha, hb]
    simp
  refine ⟨_, hmain, rfl, ?_⟩
  show ((allIdx [x, p + q, z]).map _).length = _
  rw [List.length_map, allIdx_length]

theorem MWF.hd_pos {m : MultiheadAttention} (h : MWF m) : 1 ≤ m.head_dim := by
  have h1 := h.head_div
  have h2 := h.embed_pos
  by_contra hc
  have h0 : m.head_dim = 0 := by omega
  rw [h0, Nat.mul_zero] at h1
  omega

theorem bind_ok_l {α β : Type} (x : α) (f : α → Except String β) :
    (Except.ok x >>= f) = f x := rfl

theorem bind_err_l {α β : Type} (e : String) (f : α → Except String β) :
    ((Except.error e : Except String α) >>= f) = Except.error e := rfl

/-- Inversion of a successful bind. -/
theorem bind_eq_ok {α β : Type} {x : Except String α} {f : α → Except String β}
    {b : β} : (x >>= f) = Except.ok b ↔ ∃ a, x = Except.ok a ∧ f a = Except.ok b := by
  cases x with
  | ok a => rw [bind_ok_l]; exact ⟨fun h => ⟨a, rfl, h⟩, fun ⟨a2, h1, h2⟩ => by injection h1 with h1; rw [h1]; exact h2⟩
  | error e =>
    rw [bind_err_l]
    constructor
    · intro h; cases h
    · rintro ⟨a2, h1, _⟩; cases h1

theorem size3_ok {t : Tensor} {a b c : Nat} (h : t.shape = [a, b, c]) :
    size3 t = Except.ok (a, b, c) := by
  unfold size3
  rw [h]

theorem size3_inv {t : Tensor} {a b c : Nat} (h : size3 t = Except.ok (a, b, c)) :
    t.shape = [a, b, c] := by
  unfold size3 at h
  split at h
  · injection h with h2
    injection h2 with h3 h4
    injection h4 with h5 h6
    subst h3 h5 h6
    assumption
  · cases h

/-- Inversion of a successful view to an explicit shape. -/
theorem viewShape_inv {t u : Tensor} {s : List Nat}
    (h : t.viewShape s = Except.ok u) : u = { shape := s, data := t.data } := by
  by_cases hp : s.prod = t.data.length
  · rw [viewShape_ok hp] at h
    injection h with h
    exact h.symm
  · rw [viewShape_err hp] at h
    cases h

/-- Inversion of a successful all-fixed 3-entry reshape. -/
theorem reshape_fix3_inv {t u : Tensor} {a b c : Nat}
    (h : t.reshape [VDim.fix a, VDim.fix b, VDim.fix c] = Except.ok u) :
    u = { shape := [a, b, c], data := t.data } := by
  by_cases hp : a * (b * (c * 1)) = t.data.length
  · rw [reshape_fix3_ok hp] at h
    injection h with h
    exact h.symm
  · rw [reshape_fix3_err hp] at h
    cases h

/-- Inversion of a successful Linear application. -/
theorem apply_inv {L : Linear} {t u : Tensor} (h : L.apply t = Except.ok u) :
    u.shape = t.shape.dropLast ++ [L.outF] := by
  unfold Linear.apply at h
  split at h
  · cases h
  · split at h
    · injection h with h
      rw [← h]
    · cases h

theorem swapAt12_4 (a b c d : Nat) : swapAt [a, b, c, d] 1 2 = [a, c, b, d] := rfl

theorem swapAt12_3 (a b c : Nat) : swapAt [a, b, c] 1 2 = [a, c, b] := rfl

theorem swapAt01_3 (a b c : Nat) : swapAt [a, b, c] 0 1 = [b, a, c] := rfl

theorem swapAt10_4 (a b c d : Nat) : swapAt [a, b, c, d] 1 0 = [b, a, c, d] := rfl

theorem getLast3 (a b c : Nat) : ([a, b, c] : List Nat).getLast? = some c := rfl

theorem scale_shape (t : Tensor) (c : ℚ) : (t.scale c).shape = t.shape := rfl

theorem scale_len (t : Tensor) (c : ℚ) : (t.scale c).data.length = t.data.length := by
  show (t.data.map _).length = _
  rw [List.length_map]

theorem map_shape (t : Tensor) (f : ℚ → ℚ) : (t.map f).shape = t.shape := rfl

theorem map_len (t : Tensor) (f : ℚ → ℚ) : (t.map f).data.length = t.data.length := by
  show (t.data.map _).length = _
  rw [List.length_map]

theorem softmaxLast_shape (e : ℚ → ℚ) (t : Tensor) :
    (softmaxLast e t).shape = t.shape := by
  unfold softmaxLast
  split
  · rfl
  · rfl

theorem broadcastShapes_same (s : List Nat) : broadcastShapes s s = Except.ok s := by
  unfold broadcastShapes
  rw [if_pos rfl]

theorem broadcastTo_same {t : Tensor} {s : List Nat} (h : t.shape = s) :
    t.broadcastTo s = Except.ok t := by
  unfold Tensor.broadcastTo
  rw [if_pos h]

/-- checkAndProject on well-shaped inputs: success, with the fields and
the projected-and-pruned q/k/v shapes pinned down. -/
theorem checkAndProject_spec (m : MultiheadAttention) (query key value : Tensor)
    (pkv : Bool) (b t s : Nat) (hm : MWF m)
    (hq : query.shape = [b, t, m.embed_dim]) (hqwf : query.WF)
    (hk : key.shape = [b, s, m.embed_dim]) (hkwf : key.WF)
    (hv : value.shape = [b, s, m.embed_dim]) (hvwf : value.WF)
    (hb : 1 ≤ b) :
    ∃ mid, checkAndProject m query key value pkv = Except.ok mid
      ∧ mid.bsz = b ∧ mid.tgt_len = t ∧ mid.embed_dim = m.embed_dim
      ∧ mid.src_len = s
      ∧ mid.q.shape = [b, t, m.embed_dim] ∧ mid.q.WF
      ∧ mid.k.shape = [b, s, m.embed_dim] ∧ mid.k.WF
      ∧ mid.v.shape = [b, s, m.embed_dim] ∧ mid.v.WF := by
  obtain ⟨q0, hq0, hq0s, hq0wf⟩ := apply3_ok hq hm.q_in.symm hm.embed_pos hqwf
  obtain ⟨k0, hk0, hk0s, hk0wf⟩ := apply3_ok hk hm.k_in.symm hm.embed_pos hkwf
  obtain ⟨v0, hv0, hv0s, hv0wf⟩ := apply3_ok hv hm.v_in.symm hm.embed_pos hvwf
  have hq0s2 : q0.shape = [b, t, m.embed_dim] := by rw [hq0s, hm.q_out]
  have hk0s2 : k0.shape = [b, s, m.embed_dim] := by rw [hk0s, hm.k_out]
  have hv0s2 : v0.shape = [b, s, m.embed_dim] := by rw [hv0s, hm.v_out]
  have hqlast : ((q0.scale m.scaling)).shape.getLast? = some m.embed_dim := by
    rw [scale_shape, hq0s2]
    rfl
  have hklast : k0.shape.getLast? = some m.embed_dim := by
    rw [hk0s2]
    rfl
  have hvlast : v0.shape.getLast? = some m.embed_dim := by
    rw [hv0s2]
    rfl
  obtain ⟨q1, hq1, hq1s, hq1l⟩ :=
    apply_pruning_spec3 (1 / 2) hqlast hm.embed_pos (by norm_num)
  obtain ⟨k1, hk1, hk1s, hk1l⟩ :=
    apply_pruning_spec3 (1 / 2) hklast hm.embed_pos (by norm_num)
  obtain ⟨v1, hv1, hv1s, hv1l⟩ :=
    apply_pruning_spec3 (1 / 2) hvlast hm.embed_pos (by norm_num)
  have hq1s2 : q1.shape = [b, t, m.embed_dim] := by rw [hq1s, scale_shape, hq0s2]
  have hk1s2 : k1.shape = [b, s, m.embed_dim] := by rw [hk1s, hk0s2]
  have hv1s2 : v1.shape = [b, s, m.embed_dim] := by rw [hv1s, hv0s2]
  have hq1wf : q1.WF := by
    show q1.data.length = _
    rw [hq1l, scale_len, hq0wf, hq1s2, hq0s2]
  have hk1wf : k1.WF := by
    show k1.data.length = _
    rw [hk1l, hk0wf, hk1s2, hk0s2]
  have hv1wf : v1.WF := by
    show v1.data.length = _
    rw [hv1l, hv0wf, hv1s2, hv0s2]
  have hb0 : ¬ (b = 0) := by omega
  refine ⟨⟨b, t, m.embed_dim, s, q1, k1, v1⟩, ?_, rfl, rfl, rfl, rfl,
    hq1s2, hq1wf, hk1s2, hk1wf, hv1s2, hv1wf⟩
  simp only [checkAndProject, size3_ok hq, size3_ok hk, bind_ok_l, bind_err_l,
    hq0, hk0, hv0, hq1, hk1, hv1, ne_eq, eq_self_iff_true, not_true, if_false,
    if_true, ite_self, hb0, ite_false, ite_true]
  rfl

/-- In the reference branch, when the key/value source length differs
from the query target length, the key reshape at source line 329 (which
uses tgt_len) fails with the reshape size error: the element count of
the per-head key no longer matches bsz*heads*tgt_len*head_dim. -/
theorem headReshape_ref_err (m : MultiheadAttention) (mid : Mid)
    (kpm : Option Tensor) (hm : MWF m) (hfl : m.flash_attention = false)
    (hqs : mid.q.shape = [mid.bsz, mid.tgt_len, m.embed_dim]) (hqwf : mid.q.WF)
    (hks : mid.k.shape = [mid.bsz, mid.src_len, m.embed_dim]) (hkwf : mid.k.WF)
    (hvs : mid.v.shape = [mid.bsz, mid.src_len, m.embed_dim]) (hvwf : mid.v.WF)
    (hb : 1 ≤ mid.bsz) (hst : mid.src_len ≠ mid.tgt_len) :
    headReshape m kpm mid = Except.error errReshape := by
  have he : m.num_heads * (m.head_dim * 1) = m.embed_dim * 1 := by
    rw [Nat.mul_one, Nat.mul_one, hm.head_div]
  have hq4 : mid.bsz * (mid.tgt_len * (m.num_heads * (m.head_dim * 1)))
      = mid.q.data.length := by
    rw [hqwf, hqs]
    simp only [List.prod_cons, List.prod_nil]
    rw [he]
  have hk4 : mid.bsz * (mid.src_len * (m.num_heads * (m.head_dim * 1)))
      = mid.k.data.length := by
    rw [hkwf, hks]
    simp only [List.prod_cons, List.prod_nil]
    rw [he]
  have hv4 : mid.bsz * (mid.src_len * (m.num_heads * (m.head_dim * 1)))
      = mid.v.data.length := by
    rw [hvwf, hvs]
    simp only [List.prod_cons, List.prod_nil]
    rw [he]
  have hqview := view_fix4_ok hq4
  have hkview := view_fix4_ok hk4
  have hvview := view_fix4_ok hv4
  have hqtlen : ((Tensor.mk [mid.bsz, mid.tgt_len, m.num_heads, m.head_dim]
      mid.q.data).transpose 1 2).data.length
      = mid.bsz * (m.num_heads * (mid.tgt_len * (m.head_dim * 1))) := by
    rw [transpose_length]
    show ([mid.bsz, m.num_heads, mid.tgt_len, m.head_dim] : List Nat).prod = _
    simp only [List.prod_cons, List.prod_nil]
  have hktlen : ((Tensor.mk [mid.bsz, mid.src_len, m.num_heads, m.head_dim]
      mid.k.data).transpose 1 2).data.length
      = mid.bsz * (m.num_heads * (mid.src_len * (m.head_dim * 1))) := by
    rw [transpose_length]
    show ([mid.bsz, m.num_heads, mid.src_len, m.head_dim] : List Nat).prod = _
    simp only [List.prod_cons, List.prod_nil]
  have hqre : mid.bsz * m.num_heads * (mid.tgt_len * (m.head_dim * 1))
      = ((Tensor.mk [mid.bsz, mid.tgt_len, m.num_heads, m.head_dim]
        mid.q.data).transpose 1 2).data.length := by
    rw [hqtlen]
    ring
  have hkre : ¬ (mid.bsz * m.num_heads * (mid.tgt_len * (m.head_dim * 1))
      = ((Tensor.mk [mid.bsz, mid.src_len, m.num_heads, m.head_dim]
        mid.k.data).transpose 1 2).data.length) := by
    rw [hktlen]
    intro hEq
    apply hst
    have hpos : 0 < mid.bsz * m.num_heads * m.head_dim :=
      Nat.mul_pos (Nat.mul_pos hb hm.heads_pos) hm.hd_pos
    have h2 : mid.bsz * m.num_heads * m.head_dim * mid.tgt_len
        = mid.bsz * m.num_heads * m.head_dim * mid.src_len := by
      calc mid.bsz * m.num_heads * m.head_dim * mid.tgt_len
          = mid.bsz * m.num_heads * (mid.tgt_len * (m.head_dim * 1)) := by ring
        _ = mid.bsz * (m.num_heads * (mid.src_len * (m.head_dim * 1))) := hEq
        _ = mid.bsz * m.num_heads * m.head_dim * mid.src_len := by ring
    exact (Nat.eq_of_mul_eq_mul_left hpos h2).symm
  unfold headReshape
  rw [hfl]
  simp only [Bool.false_eq_true, if_false, hqview, hkview, hvview, bind_ok_l,
    bind_err_l, swapAt12_4, reshape_fix3_ok hqre, reshape_fix3_err hkre]

/-- C10: in the reference path the key and value are reshaped with
tgt_len (source lines 329-330), so any call whose key/value sequence
length differs from the query's fails at that reshape rather than
computing attention over the true source length. -/
theorem claim10_reshape_uses_tgt_len (m : MultiheadAttention)
    (query key value : Tensor) (inc : Option IncState)
    (kpm am rp : Option Tensor) (pkv : Bool) (b t s : Nat)
    (hm : MWF m) (hfl : m.flash_attention = false)
    (hq : query.shape = [b, t, m.embed_dim]) (hqwf : query.WF)
    (hk : key.shape = [b, s, m.embed_dim]) (hkwf : key.WF)
    (hv : value.shape = [b, s, m.embed_dim]) (hvwf : value.WF)
    (hb : 1 ≤ b) (hst : s ≠ t) :
    forward m query key value inc kpm am rp pkv = Except.error errReshape := by
  obtain ⟨mid, hmid, hbsz, htgt, hemb, hsrc, hqs, hqwf2, hks, hkwf2, hvs, hvwf2⟩ :=
    checkAndProject_spec m query key value pkv b t s hm hq hqwf hk hkwf hv hvwf hb
  have herr : headReshape m kpm mid = Except.error errReshape := by
    apply headReshape_ref_err m mid kpm hm hfl
    · rw [hqs, hbsz, htgt]
    · exact hqwf2
    · rw [hks, hbsz, hsrc]
    · exact hkwf2
    · rw [hvs, hbsz, hsrc]
    · exact hvwf2
    · rw [hbsz]; exact hb
    · rw [hsrc, htgt]; exact hst
  show (checkAndProject m query key value pkv >>= _) = _
  rw [hmid, bind_ok_l, herr]
  rfl

theorem throw_bind {β : Type} (e : String) (f : PUnit → Except String β) :
    ((throw e : Except String PUnit) >>= f) = Except.error e := rfl

theorem pure_bind_u {β : Type} (f : PUnit → Except String β) :
    ((pure PUnit.unit : Except String PUnit) >>= f) = f PUnit.unit := rfl

/-- A successful checkAndProject ties its fields to the query shape and
the configured width. -/
theorem checkAndProject_inv {m : MultiheadAttention} {query key value : Tensor}
    {pkv : Bool} {mid : Mid}
    (h : checkAndProject m query key value pkv = Except.ok mid) :
    query.shape = [mid.bsz, mid.tgt_len, mid.embed_dim]
      ∧ mid.embed_dim = m.embed_dim := by
  unfold checkAndProject at h
  rw [bind_eq_ok] at h
  obtain ⟨⟨a, b, c⟩, hsz, h⟩ := h
  dsimp only [] at h
  by_cases hcc : c ≠ m.embed_dim
  · rw [if_pos hcc, throw_bind] at h
    exact Except.noConfusion h
  rw [if_neg hcc] at h
  rw [pure_bind_u, bind_eq_ok] at h
  obtain ⟨trip2, hsz2, h⟩ := h
  by_cases hkb : trip2.1 ≠ a
  · rw [if_pos hkb, throw_bind] at h
    exact Except.noConfusion h
  rw [if_neg hkb, pure_bind_u] at h
  by_cases hb0 : a = 0
  · rw [if_pos hb0, throw_bind] at h
    exact Except.noConfusion h
  rw [if_neg hb0, pure_bind_u] at h
  have hc : c = m.embed_dim := by omega
  by_cases hp : pkv = true
  case neg =>
    rw [if_pos hp] at h
    rw [bind_eq_ok] at h
    obtain ⟨u2, _, h⟩ := h
    rw [bind_eq_ok] at h
    obtain ⟨u3, _, h⟩ := h
    rw [pure_bind_u, bind_eq_ok] at h
    obtain ⟨q0, _, h⟩ := h
    rw [bind_eq_ok] at h
    obtain ⟨k0, _, h⟩ := h
    rw [bind_eq_ok] at h
    obtain ⟨v0, _, h⟩ := h
    rw [bind_eq_ok] at h
    obtain ⟨q1, _, h⟩ := h
    rw [bind_eq_ok] at h
    obtain ⟨k1, _, h⟩ := h
    rw [bind_eq_ok] at h
    obtain ⟨v1, _, h⟩ := h
    injection h with h
    rw [← h]
    exact ⟨by rw [size3_inv hsz, hc], hc⟩
  case pos =>
    rw [if_neg (not_not_intro hp), pure_bind_u] at h
    rw [bind_eq_ok] at h
    obtain ⟨q0, _, h⟩ := h
    rw [bind_eq_ok] at h
    obtain ⟨k0, _, h⟩ := h
    rw [bind_eq_ok] at h
    obtain ⟨v0, _, h⟩ := h
    rw [bind_eq_ok] at h
    obtain ⟨q1, _, h⟩ := h
    rw [bind_eq_ok] at h
    obtain ⟨k1, _, h⟩ := h
    rw [bind_eq_ok] at h
    obtain ⟨v1, _, h⟩ := h
    injection h with h
    rw [← h]
    exact ⟨by rw [size3_inv hsz, hc], hc⟩

/-- A successful headReshape leaves every Mid field except q/k/v
unchanged. -/
theorem headReshape_inv_fields {m : MultiheadAttention} {kpm : Option Tensor}
    {mid mid2 : Mid} (h : headReshape m kpm mid = Except.ok mid2) :
    mid2.bsz = mid.bsz ∧ mid2.tgt_len = mid.tgt_len
      ∧ mid2.embed_dim = mid.embed_dim ∧ mid2.src_len = mid.src_len := by
  unfold headReshape at h
  by_cases hf : m.flash_attention = true
  · rw [if_pos hf] at h
    rw [bind_eq_ok] at h
    obtain ⟨q0, _, h⟩ := h
    rw [bind_eq_ok] at h
    obtain ⟨k0, _, h⟩ := h
    rw [bind_eq_ok] at h
    obtain ⟨v0, _, h⟩ := h
    rw [bind_eq_ok] at h
    obtain ⟨qkv, _, h⟩ := h
    injection h with h
    rw [← h]
    exact ⟨rfl, rfl, rfl, rfl⟩
  · rw [if_neg hf] at h
    rw [bind_eq_ok] at h
    obtain ⟨q0, _, h⟩ := h
    rw [bind_eq_ok] at h
    obtain ⟨k0, _, h⟩ := h
    rw [bind_eq_ok] at h
    obtain ⟨v0, _, h⟩ := h
    rw [bind_eq_ok] at h
    obtain ⟨q2, _, h⟩ := h
    rw [bind_eq_ok] at h
    obtain ⟨k2, _, h⟩ := h
    rw [bind_eq_ok] at h
    obtain ⟨v2, _, h⟩ := h
    injection h with h
    rw [← h]
    exact ⟨rfl, rfl, rfl, rfl⟩

/-- A successful mergeCache leaves bsz, tgt_len, embed_dim and q
unchanged. -/
theorem mergeCache_inv_fields {m : MultiheadAttention} {mid mid3 : Mid}
    {inc : Option IncState} {inc2 : Option IncState}
    (h : mergeCache m mid inc = Except.ok (mid3, inc2)) :
    mid3.bsz = mid.bsz ∧ mid3.tgt_len = mid.tgt_len
      ∧ mid3.embed_dim = mid.embed_dim ∧ mid3.q = mid.q := by
  unfold mergeCache at h
  cases inc with
  | none =>
    dsimp only [] at h
    injection h with h
    injection h with h1 h2
    rw [← h1]
    exact ⟨rfl, rfl, rfl, rfl⟩
  | some st =>
    dsimp only [] at h
    rw [bind_eq_ok] at h
    obtain ⟨⟨k4, v4⟩, _, h⟩ := h
    dsimp only [] at h
    rw [bind_eq_ok] at h
    obtain ⟨pk4, _, h⟩ := h
    rw [bind_eq_ok] at h
    obtain ⟨pv4, _, h⟩ := h
    injection h with h
    injection h with h1 h2
    rw [← h1]
    exact ⟨rfl, rfl, rfl, rfl⟩

theorem applyXpos_fields (m : MultiheadAttention) (inc : Option IncState)
    (mid : Mid) : (applyXpos m inc mid).bsz = mid.bsz
      ∧ (applyXpos m inc mid).tgt_len = mid.tgt_len
      ∧ (applyXpos m inc mid).embed_dim = mid.embed_dim
      ∧ (applyXpos m inc mid).src_len = mid.src_len := by
  unfold applyXpos
  split
  · exact ⟨rfl, rfl, rfl, rfl⟩
  · exact ⟨rfl, rfl, rfl, rfl⟩

/-- A successful finalize fixes the output shapes: the attention output
is (batch, target-len, embed-dim) and the weight tensor is the
transpose(1, 0) of the (batch, heads, target-len, source-len) view,
hence (heads, batch, target-len, source-len). -/
theorem finalize_inv {m : MultiheadAttention} {mid : Mid} {aw attn w : Tensor}
    (hm : MWF m) (h : finalize m mid aw = Except.ok (attn, w)) :
    attn.shape = [mid.bsz, mid.tgt_len, m.embed_dim]
      ∧ w.shape = [m.num_heads, mid.bsz, mid.tgt_len, mid.src_len] := by
  unfold finalize at h
  rw [bind_eq_ok] at h
  obtain ⟨attn2, hout, h⟩ := h
  rw [bind_eq_ok] at h
  obtain ⟨w4, hw4, h⟩ := h
  injection h with h
  injection h with ha hw
  unfold outTail at hout
  rw [bind_eq_ok] at hout
  obtain ⟨a1, _, hout⟩ := hout
  dsimp only [] at hout
  rw [bind_eq_ok] at hout
  obtain ⟨a3, ha3, hout⟩ := hout
  have ha3e := reshape_fix3_inv ha3
  have ha5 : ∀ x : Tensor,
      (if m.subln && m.self_attention then m.inner_attn_ln x else x).shape
        = x.shape := by
    intro x
    split
    · exact hm.ln_shape x
    · rfl
  have hattnshape : attn2.shape
      = ((if m.subln && m.self_attention
          then m.inner_attn_ln ((a3.transpose 0 1))
          else (a3.transpose 0 1))).shape.dropLast ++ [m.out_proj.outF] :=
    apply_inv hout
  have htr : ((a3.transpose 0 1)).shape = [mid.bsz, mid.tgt_len, mid.embed_dim] := by
    rw [transpose_shape, ha3e]
    exact swapAt01_3 mid.tgt_len mid.bsz mid.embed_dim
  constructor
  · rw [← ha, hattnshape, ha5, htr, hm.o_out]
    rfl
  · rw [← hw, transpose_shape, viewShape_inv hw4]
    exact swapAt10_4 mid.bsz m.num_heads mid.tgt_len mid.src_len

/-- C1: the claim says a supplied boolean key-padding mask (fused path
disabled) turns the masked scores into negative infinity before softmax
so the masked source positions get zero attention weight.  On the live
code any call that supplies a key-padding mask instead raises
UnboundLocalError at source line 333: the first masking block
(lines 332-338) reads the local attn_weights before any branch has
assigned it.  The identical call without the mask succeeds, isolating
the mask as the trigger. -/
theorem claim1_key_padding_mask_crash :
    forward mRef t111 t111 t111 none (some pm11) none none false
        = Except.error errUnbound
      ∧ (forward mRef t111 t111 t111 none none none none false).isOk = true := by
  with_unfolding_all decide

/-- C2: the claim says precomputed_kv = true skips the key/value
projections.  On the live code the flag is dead: lines 295-297 compute
projections whose results are immediately overwritten by the
unconditional projections at lines 301-302.  First conjunct: the flag
does not change the result at all.  Second conjunct: with the flag set,
an engine whose value projection doubles its input produces a different
output than the identity-projection engine on the same input, so the
value IS passed through the projection adapter even when
precomputed_kv is true. -/
theorem claim2_precomputed_kv_ignored :
    forward mDblV t111 t111 t111 none none none none true
        = forward mDblV t111 t111 t111 none none none none false
      ∧ forward mDblV t111 t111 t111 none none none none true
        ≠ forward mRef t111 t111 t111 none none none none true := by
  with_unfolding_all decide

/-- C3: the claim says the fused path raises a distinct
unsupported-configuration error when an additive mask or relative bias
is supplied.  On the live code there is no such check: the fused branch
hands the mask-free packed qkv to the kernel (dropping the mask/bias
from that call), falls through into the reference score computation
with 4-axis tensors, and dies at torch.bmm with a generic
dimensionality error - the SAME error it raises when no mask or bias is
supplied at all, so nothing distinguishes the unsupported
configuration. -/
theorem claim3_fused_no_distinct_error :
    forward mFlash t111 t111 t111 none none (some am11) none false
        = Except.error errBmm3d
      ∧ forward mFlash t111 t111 t111 none none none (some rp111) false
        = Except.error errBmm3d
      ∧ forward mFlash t111 t111 t111 none none none none false
        = Except.error errBmm3d := by
  with_unfolding_all decide

/-- C4: the claim says that under the supported subset (no additive
mask, no relative bias, dropout disabled) the fused path returns the
same output as the reference path.  On the live code the fused path
never returns an output at all: the flash branch does not return after
calling the kernel, execution falls through into the reference score
computation with 4-axis tensors and fails at torch.bmm, while the
identically configured reference path succeeds. -/
theorem claim4_fused_path_crashes :
    forward mFlash t111 t111 t111 none none none none false
        = Except.error errBmm3d
      ∧ forward mRef t111 t111 t111 none none none none false
        = Except.ok (⟨[1, 1, 1], [2]⟩, ⟨[1, 1, 1, 1], [1]⟩, none) := by
  with_unfolding_all decide

/-- C9: the claim says a batch-size mismatch of the key OR of the value
against the query fails fast before any attention computation.  The key
check (line 291) does fail fast - second conjunct.  But line 293 reads
`assert bsz, src_len == value.shape[:2]`: the tuple comparison is the
assert MESSAGE and only the truthiness of bsz is asserted, so a value
tensor with batch size 2 against query batch size 1 is accepted and its
data is silently reinterpreted as a batch-1 sequence (first conjunct:
the call succeeds). -/
theorem claim9_value_batch_not_checked :
    (forward mRef q141 q141 v221 none none none none false).isOk = true
      ∧ forward mRef q141 k241 v221 none none none none false
        = Except.error errKeyBatch := by
  with_unfolding_all decide

/-- C5 counterexample: the claim says apply_pruning retains exactly
ceil(ratio * n) entries (here ceil(3/2) = 2) of largest MAGNITUDE.  At
tensor [-5, 1, 0] with ratio 1/2 the code retains a single entry
(int() truncates: max(int(1.5), 1) = 1) and selects it by VALUE, so the
magnitude-5 entry -5 is zeroed and only the entry 1 survives. -/
theorem claim5_pruning_counterexample :
    apply_pruning ⟨[3], [-5, 1, 0]⟩ (1 / 2) = Except.ok ⟨[3], [0, 1, 0]⟩
      ∧ Int.toNat (Int.ceil ((3 : ℚ) * (1 / 2))) = 2
      ∧ (([0, 1, 0] : List ℚ).countP (fun x => x != 0)) = 1
      ∧ (1 : Nat) ≠ 2 := by
  with_unfolding_all decide

/-- mRef satisfies the configuration well-formedness contracts. -/
theorem mRef_wf : MWF mRef := by
  constructor
  all_goals first
    | decide
    | (intro t; rfl)
    | (intro t o d; rfl)

/-- m2h satisfies the configuration well-formedness contracts. -/
theorem m2h_wf : MWF m2h := by
  constructor
  all_goals first
    | decide
    | (intro t; rfl)
    | (intro t o d; rfl)

/-- C8 amended: for every successful call, the attention output has
shape (batch, target-len, embedding-dim) as claimed, but the attention
weights come back as (heads, batch, target-len, source-len): source
line 408 transposes axes 1 and 0 of the (batch, heads, tgt, src)
view. -/
theorem claim8_output_shapes_amended (m : MultiheadAttention)
    (query key value : Tensor) (inc : Option IncState)
    (kpm am rp : Option Tensor) (pkv : Bool)
    (attn w : Tensor) (inc2 : Option IncState) (b t e : Nat)
    (hm : MWF m) (hq : query.shape = [b, t, e])
    (hok : forward m query key value inc kpm am rp pkv
      = Except.ok (attn, w, inc2)) :
    attn.shape = [b, t, m.embed_dim]
      ∧ ∃ s, w.shape = [m.num_heads, b, t, s] := by
  unfold forward at hok
  rw [bind_eq_ok] at hok
  obtain ⟨mid1, h1, hok⟩ := hok
  rw [bind_eq_ok] at hok
  obtain ⟨mid2, h2, hok⟩ := hok
  rw [bind_eq_ok] at hok
  obtain ⟨u, hu, hok⟩ := hok
  rw [bind_eq_ok] at hok
  obtain ⟨⟨mid3, inc3⟩, h3, hok⟩ := hok
  dsimp only [] at hok
  rw [bind_eq_ok] at hok
  obtain ⟨aw1, h5, hok⟩ := hok
  rw [bind_eq_ok] at hok
  obtain ⟨aw2, h6, hok⟩ := hok
  rw [bind_eq_ok] at hok
  obtain ⟨⟨attn2, w2⟩, h7, hok⟩ := hok
  dsimp only [] at hok
  injection hok with hok
  injection hok with ha hok
  injection hok with hw hinc
  obtain ⟨hqs, hemb⟩ := checkAndProject_inv h1
  obtain ⟨hb2, ht2, he2, hs2⟩ := headReshape_inv_fields h2
  obtain ⟨hb3, ht3, he3, _⟩ := mergeCache_inv_fields h3
  obtain ⟨hxb, hxt, hxe, hxs⟩ := applyXpos_fields m inc mid3
  obtain ⟨hfa, hfw⟩ := finalize_inv hm h7
  rw [hq] at hqs
  injection hqs with hb1 hqs
  injection hqs with ht1 hqs
  constructor
  · rw [← ha, hfa, hxb, hb3, hb2, ← hb1, hxt, ht3, ht2, ← ht1]
  · exact ⟨(applyXpos m inc mid3).src_len,
      by rw [← hw, hfw, hxb, hb3, hb2, ← hb1, hxt, ht3, ht2, ← ht1]⟩

/-- C8 amended witness: a concrete successful two-head call with the
shapes evaluated. -/
theorem claim8_output_shapes_amended_witness :
    (⟨[1, 1, 2], [0, 2]⟩ : Tensor).shape = [1, 1, m2h.embed_dim]
      ∧ ∃ s, (⟨[2, 1, 1, 1], [1, 1]⟩ : Tensor).shape = [m2h.num_heads, 1, 1, s] :=
  claim8_output_shapes_amended m2h q8 q8 q8 none none none none false
    ⟨[1, 1, 2], [0, 2]⟩ ⟨[2, 1, 1, 1], [1, 1]⟩ none 1 1 2 m2h_wf rfl
    (by with_unfolding_all decide)

/-- C10 witness: a concrete reference-path call whose key/value length
1 differs from the query length 2 and which fails at the reshape. -/
theorem claim10_reshape_uses_tgt_len_witness :
    forward mRef ⟨[1, 2, 1], [1, 2]⟩ t111 t111 none none none none false
      = Except.error errReshape :=
  claim10_reshape_uses_tgt_len mRef ⟨[1, 2, 1], [1, 2]⟩ t111 t111 none none none
    none false 1 2 1 mRef_wf rfl rfl (by decide) rfl (by decide) rfl (by decide)
    (by decide) (by decide)

/-- selectMax returns none only on the empty list. -/
theorem selectMax_eq_none : ∀ {l : List (Nat × ℚ)}, selectMax l = none → l = [] := by
  intro l h
  cases l with
  | nil => rfl
  | cons b bs =>
    rw [selectMax] at h
    split at h
    · cases h
    · split at h <;> cases h

/-- selectMax returns a maximal pair together with the rest of the
list, up to permutation. -/
theorem selectMax_spec : ∀ (l : List (Nat × ℚ)) (p : Nat × ℚ)
    (rest : List (Nat × ℚ)), selectMax l = some (p, rest) →
      l.Perm (p :: rest) ∧ ∀ q ∈ l, q.2 ≤ p.2 := by
  intro l
  induction l with
  | nil => intro p rest h; cases h
  | cons a as ih =>
    intro p rest h
    rw [selectMax] at h
    split at h
    · rename_i h0
      injection h with h
      injection h with h1 h2
      subst h1
      subst h2
      have has : as = [] := selectMax_eq_none h0
      subst has
      constructor
      · exact List.Perm.refl _
      · intro q hq
        rcases List.mem_cons.mp hq with rfl | hq2
        · exact le_refl _
        · cases hq2
    · rename_i q0 r0 h0
      obtain ⟨hperm0, hmax0⟩ := ih q0 r0 h0
      split at h
      · rename_i hlt
        injection h with h
        injection h with h1 h2
        subst h1
        subst h2
        constructor
        · exact (List.Perm.cons a hperm0).trans (List.Perm.swap _ _ _)
        · intro q hq
          rcases List.mem_cons.mp hq with rfl | hq2
          · exact le_of_lt hlt
          · exact hmax0 q hq2
      · rename_i hlt
        injection h with h
        injection h with h1 h2
        subst h1
        subst h2
        constructor
        · exact List.Perm.refl _
        · intro q hq
          rcases List.mem_cons.mp hq with rfl | hq2
          · exact le_refl _
          · exact le_trans (hmax0 q hq2) (not_lt.mp hlt)

/-- topkSel selects k pairs that dominate everything left over, up to
permutation of the input. -/
theorem topkSel_spec : ∀ (k : Nat) (l : List (Nat × ℚ)), k ≤ l.length →
    ∃ rest, l.Perm (topkSel k l ++ rest) ∧ (topkSel k l).length = k
      ∧ ∀ p ∈ topkSel k l, ∀ q ∈ rest, q.2 ≤ p.2 := by
  intro k
  induction k with
  | zero =>
    intro l _
    refine ⟨l, ?_, ?_, ?_⟩
    · rw [topkSel, List.nil_append]
    · simp [topkSel]
    · intro p hp
      rw [topkSel] at hp
      cases hp
  | succ k ih =>
    intro l hk
    cases l with
    | nil => simp at hk
    | cons a as =>
      have hsm : ∃ pr, selectMax (a :: as) = some pr := by
        cases hsm0 : selectMax (a :: as) with
        | none => exact absurd (selectMax_eq_none hsm0) (List.cons_ne_nil a as)
        | some pr => exact ⟨pr, rfl⟩
      obtain ⟨⟨p0, rest0⟩, hsm⟩ := hsm
      obtain ⟨hperm0, hmax0⟩ := selectMax_spec _ _ _ hsm
      have hlen0 : rest0.length = as.length := by
        have h2 := hperm0.length_eq
        simp only [List.length_cons] at h2
        omega
      have hk0 : k ≤ rest0.length := by
        simp only [List.length_cons] at hk
        omega
      obtain ⟨rest1, hperm1, hlen1, hmax1⟩ := ih rest0 hk0
      have heq : topkSel (k + 1) (a :: as) = p0 :: topkSel k rest0 := by
        rw [topkSel, hsm]
      refine ⟨rest1, ?_, ?_, ?_⟩
      · rw [heq]
        exact hperm0.trans (List.Perm.cons p0 hperm1)
      · rw [heq, List.length_cons, hlen1]
      · rw [heq]
        intro p hp q hq
        rcases List.mem_cons.mp hp with rfl | hp2
        · have hq0 : q ∈ rest0 := hperm1.mem_iff.mpr (List.mem_append_right _ hq)
          exact hmax0 q (hperm0.mem_iff.mpr (List.mem_cons_of_mem _ hq0))
        · exact hmax1 p hp2 q hq

/-- Membership in enum determines the index bound and the value. -/
theorem mem_enum_eq {row : List ℚ} {p : Nat × ℚ} (hp : p ∈ row.enum) :
    p.1 < row.length ∧ p.2 = row.getD p.1 0 := by
  obtain ⟨i, hi, hp2⟩ := List.mem_iff_getElem.mp hp
  rw [List.enum_length] at hi
  rw [List.getElem_enum] at hp2
  subst hp2
  exact ⟨hi, (List.getD_eq_getElem row 0 hi).symm⟩

/-- pruneRow keeps exactly a top-k-by-value index set and zeroes the
rest of the row. -/
theorem pruneRow_spec (k : Nat) (row : List ℚ) (hk : k ≤ row.length) :
    ∃ S : Finset ℕ, S ⊆ Finset.range row.length ∧ S.card = k
      ∧ (∀ i ∈ S, ∀ j ∈ Finset.range row.length, j ∉ S →
          row.getD j 0 ≤ row.getD i 0)
      ∧ pruneRow k row = (List.range row.length).map
          (fun i => if i ∈ S then row.getD i 0 else 0) := by
  have hk2 : k ≤ row.enum.length := by rw [List.enum_length]; exact hk
  obtain ⟨rest, hperm, hlen, hmax⟩ := topkSel_spec k row.enum hk2
  have hpermf : (row.enum.map Prod.fst).Perm
      ((topkSel k row.enum ++ rest).map Prod.fst) := hperm.map Prod.fst
  rw [List.enum_map_fst] at hpermf
  have hnodup : ((topkSel k row.enum ++ rest).map Prod.fst).Nodup :=
    hpermf.nodup (List.nodup_range _)
  rw [List.map_append] at hnodup
  have hnodupc : ((topkSel k row.enum).map Prod.fst).Nodup :=
    hnodup.of_append_left
  refine ⟨((topkSel k row.enum).map Prod.fst).toFinset, ?_, ?_, ?_, ?_⟩
  · intro i hi
    rw [List.mem_toFinset] at hi
    obtain ⟨p, hp, hpi⟩ := List.mem_map.mp hi
    have hpmem : p ∈ row.enum := hperm.mem_iff.mpr (List.mem_append_left _ hp)
    rw [Finset.mem_range, ← hpi]
    exact (mem_enum_eq hpmem).1
  · rw [List.toFinset_card_of_nodup hnodupc, List.length_map, hlen]
  · intro i hi j hj hjn
    rw [List.mem_toFinset] at hi hjn
    obtain ⟨p, hp, hpi⟩ := List.mem_map.mp hi
    have hpmem : p ∈ row.enum := hperm.mem_iff.mpr (List.mem_append_left _ hp)
    obtain ⟨_, hpval⟩ := mem_enum_eq hpmem
    rw [Finset.mem_range] at hj
    have hjmem : (j, row.getD j 0) ∈ row.enum := by
      apply List.mem_iff_getElem.mpr
      refine ⟨j, by rw [List.enum_length]; exact hj, ?_⟩
      rw [List.getElem_enum, List.getD_eq_getElem row 0 hj]
    rcases List.mem_append.mp (hperm.mem_iff.mp hjmem) with hc | hr
    · exact absurd (List.mem_map_of_mem Prod.fst hc) hjn
    · have hle := hmax p hp (j, row.getD j 0) hr
      rw [hpval] at hle
      rw [← hpi]
      exact hle
  · apply List.ext_getElem
    · rw [pruneRow_length, List.length_map, List.length_range]
    · intro mIdx h1 h2
      rw [pruneRow_length] at h1
      show (List.zipWith (fun x y => x * y) row _)[mIdx] = _
      rw [List.getElem_zipWith, List.getElem_map, List.getElem_enum,
        List.getElem_map, List.getElem_range]
      show row[mIdx] * (if ((topkSel k row.enum).map Prod.fst).contains mIdx
        then (1 : ℚ) else 0) = _
      by_cases hmem : mIdx ∈ (topkSel k row.enum).map Prod.fst
      · rw [if_pos ?hc]
        case hc =>
          show List.elem mIdx _ = true
          exact List.elem_iff.mpr hmem
        rw [if_pos (List.mem_toFinset.mpr hmem), mul_one,
          List.getD_eq_getElem row 0 h1]
      · rw [if_neg ?hc]
        case hc =>
          show ¬ (List.elem mIdx _ = true)
          intro hcc
          exact hmem (List.elem_iff.mp hcc)
        rw [if_neg (fun hcc => hmem (List.mem_toFinset.mp hcc)), mul_zero]

theorem getLast?_dvd_prod : ∀ (l : List Nat) (n : Nat),
    l.getLast? = some n → n ∣ l.prod := by
  intro l
  induction l with
  | nil => intro n h; cases h
  | cons x xs ih =>
    intro n h
    cases xs with
    | nil =>
      have h2 : x = n := by simpa using h
      subst h2
      simp [List.prod_cons]
    | cons y ys =>
      rw [List.getLast?_cons_cons] at h
      exact Dvd.dvd.mul_left (ih n h) x

theorem forall₂_map_right {α β : Type} {P : α → β → Prop} (f : α → β) :
    ∀ l : List α, (∀ a ∈ l, P a (f a)) → List.Forall₂ P l (l.map f) := by
  intro l
  induction l with
  | nil => intro _; exact List.Forall₂.nil
  | cons a as ih =>
    intro h
    exact List.Forall₂.cons (h a (List.mem_cons_self a as))
      (ih (fun b hb => h b (List.mem_cons_of_mem a hb)))

theorem range_map_getD : ∀ (r : List ℚ),
    (List.range r.length).map (fun i => r.getD i 0) = r := by
  intro r
  apply List.ext_getElem
  · rw [List.length_map, List.length_range]
  · intro mIdx h1 h2
    rw [List.getElem_map, List.getElem_range, List.getD_eq_getElem r 0 h2]

/-- C5 amended: for a tensor with positive last dimension n and a ratio
in (0, 1], apply_pruning succeeds, preserves shape and element count,
and per last-axis row retains exactly max(floor(ratio*n), 1) entries of
largest VALUE (ties arbitrary, realized by an index set S), zeroing the
rest; ratio = 1 is the identity. -/
theorem claim5_pruning_amended (t : Tensor) (top_k : ℚ) (n : Nat)
    (hn : t.shape.getLast? = some n) (h1 : 1 ≤ n) (hwf : t.WF)
    (h0 : 0 < top_k) (hle : top_k ≤ 1) :
    ∃ u, apply_pruning t top_k = Except.ok u ∧ u.shape = t.shape
      ∧ u.data.length = t.data.length
      ∧ List.Forall₂ (fun r o => ∃ S : Finset ℕ,
          S ⊆ Finset.range n
            ∧ S.card = max (Int.toNat (Int.floor ((n : ℚ) * top_k))) 1
            ∧ (∀ i ∈ S, ∀ j ∈ Finset.range n, j ∉ S → r.getD j 0 ≤ r.getD i 0)
            ∧ o = (List.range n).map (fun i => if i ∈ S then r.getD i 0 else 0))
          (chunks n t.data) (chunks n u.data)
      ∧ (top_k = 1 → u = t) := by
  have hok := apply_pruning_ok top_k hn h1 hle
  set k := max (Int.toNat (Int.floor ((n : ℚ) * top_k))) 1 with hkdef
  have hkn : k ≤ n := prune_k_le h1 hle
  obtain ⟨c, hc⟩ := getLast?_dvd_prod t.shape n hn
  have hlen : t.data.length = c * n := by rw [hwf, hc]; ring
  obtain ⟨hcount, hrows⟩ := chunks_rows (by omega : (1 : Nat) ≤ n) c t.data hlen
  have hrowlen : ∀ r ∈ (chunks n t.data).map (pruneRow k), r.length = n := by
    intro r hr
    obtain ⟨r0, hr0, hr0e⟩ := List.mem_map.mp hr
    rw [← hr0e, pruneRow_length, hrows r0 hr0]
  have hchunksu : chunks n ((chunks n t.data).map (pruneRow k)).flatten
      = (chunks n t.data).map (pruneRow k) :=
    chunks_of_rows (by omega) _ hrowlen
  refine ⟨_, hok, rfl, ?_, ?_, ?_⟩
  · show (((chunks n t.data).map (pruneRow k)).flatten).length = _
    rw [flatten_map_len _ _ (fun r _ => pruneRow_length _ r),
      chunks_flatten (by omega : (1 : Nat) ≤ n)]
  · show List.Forall₂ _ (chunks n t.data)
      (chunks n (((chunks n t.data).map (pruneRow k)).flatten))
    rw [hchunksu]
    apply forall₂_map_right
    intro r hr
    have hrl : r.length = n := hrows r hr
    obtain ⟨S, hsub, hcard, hdom, hout⟩ := pruneRow_spec k r (by rw [hrl]; exact hkn)
    rw [hrl] at hsub hdom hout
    exact ⟨S, hsub, hcard, hdom, hout⟩
  · intro htop
    subst htop
    have hkn2 : k = n := by
      rw [hkdef, mul_one, Int.floor_natCast, Int.toNat_natCast]
      omega
    have hrowsid : ∀ r ∈ chunks n t.data, pruneRow k r = r := by
      intro r hr
      have hrl : r.length = n := hrows r hr
      obtain ⟨S, hsub, hcard, _, hout⟩ := pruneRow_spec k r (by rw [hrl]; exact hkn)
      have hS : S = Finset.range r.length := by
        apply Finset.eq_of_subset_of_card_le hsub
        rw [Finset.card_range, hcard, hkn2, hrl]
      rw [hout, hS]
      have hif : ∀ i ∈ List.range r.length,
          (if i ∈ Finset.range r.length then r.getD i 0 else 0) = r.getD i 0 := by
        intro i hi
        rw [if_pos (Finset.mem_range.mpr (List.mem_range.mp hi))]
      rw [List.map_congr_left hif, range_map_getD]
    have hmapid : (chunks n t.data).map (pruneRow k) = chunks n t.data := by
      rw [List.map_congr_left hrowsid, List.map_id']
    show (⟨t.shape, ((chunks n t.data).map (pruneRow k)).flatten⟩ : Tensor) = t
    rw [hmapid, chunks_flatten (by omega : (1 : Nat) ≤ n)]

/-- C5 amended witness: the two-entry row [3, 1] at ratio 1/2 keeps its
single largest entry. -/
theorem claim5_pruning_amended_witness :
    ∃ u, apply_pruning ⟨[2], [3, 1]⟩ (1 / 2) = Except.ok u
      ∧ u.shape = (⟨[2], [3, 1]⟩ : Tensor).shape
      ∧ u.data.length = (⟨[2], [3, 1]⟩ : Tensor).data.length
      ∧ List.Forall₂ (fun r o => ∃ S : Finset ℕ,
          S ⊆ Finset.range 2
            ∧ S.card = max (Int.toNat (Int.floor ((2 : ℚ) * (1 / 2)))) 1
            ∧ (∀ i ∈ S, ∀ j ∈ Finset.range 2, j ∉ S → r.getD j 0 ≤ r.getD i 0)
            ∧ o = (List.range 2).map (fun i => if i ∈ S then r.getD i 0 else 0))
          (chunks 2 (⟨[2], [3, 1]⟩ : Tensor).data) (chunks 2 u.data)
      ∧ ((1 : ℚ) / 2 = 1 → u = ⟨[2], [3, 1]⟩) :=
  claim5_pruning_amended ⟨[2], [3, 1]⟩ (1 / 2) 2 rfl (by decide) (by decide)
    (by norm_num) (by norm_num)

/-- C6: the incremental-cache merge of source lines 342-358.  First
conjunct (populated cache): the stored prev_key/prev_value are
re-viewed to (batch*heads, len, head_dim), the fresh key/value are
concatenated onto them along the sequence axis (cat1), the enlarged
tensors overwrite the cache as (batch, heads, len, head_dim) views of
the SAME data, and the effective source length becomes the concatenated
length L + s.  Second conjunct (empty cache): the fresh key/value are
stored as-is and the source length becomes the fresh length.  Third
conjunct: forward is exactly the stage chain in which the merged
tensors and the merged source length flow into the score computation
and the final weight view. -/
theorem claim6_cache_merge :
    (∀ (m : MultiheadAttention) (mid : Mid) (pk pv : Tensor) (L s : Nat),
      1 ≤ m.num_heads → 1 ≤ m.head_dim → 1 ≤ mid.bsz →
      pk.shape = [mid.bsz, m.num_heads, L, m.head_dim] → pk.WF →
      pv.shape = [mid.bsz, m.num_heads, L, m.head_dim] → pv.WF →
      mid.k.shape = [mid.bsz * m.num_heads, s, m.head_dim] →
      mid.v.shape = [mid.bsz * m.num_heads, s, m.head_dim] →
      ∃ ck cv,
        cat1 ⟨[mid.bsz * m.num_heads, L, m.head_dim], pk.data⟩ mid.k
            = Except.ok ck
          ∧ cat1 ⟨[mid.bsz * m.num_heads, L, m.head_dim], pv.data⟩ mid.v
            = Except.ok cv
          ∧ ck.shape = [mid.bsz * m.num_heads, L + s, m.head_dim]
          ∧ cv.shape = [mid.bsz * m.num_heads, L + s, m.head_dim]
          ∧ mergeCache m mid (some ⟨some pk, some pv⟩)
            = Except.ok ({ mid with k := ck, v := cv, src_len := L + s },
              some ⟨some ⟨[mid.bsz, m.num_heads, L + s, m.head_dim], ck.data⟩,
                some ⟨[mid.bsz, m.num_heads, L + s, m.head_dim], cv.data⟩⟩))
      ∧ (∀ (m : MultiheadAttention) (mid : Mid) (pv0 : Option Tensor) (s : Nat),
        1 ≤ m.num_heads → 1 ≤ m.head_dim → 1 ≤ mid.bsz →
        mid.k.shape = [mid.bsz * m.num_heads, s, m.head_dim] → mid.k.WF →
        mid.v.shape = [mid.bsz * m.num_heads, s, m.head_dim] → mid.v.WF →
        mergeCache m mid (some ⟨none, pv0⟩)
          = Except.ok ({ mid with src_len := s },
            some ⟨some ⟨[mid.bsz, m.num_heads, s, m.head_dim], mid.k.data⟩,
              some ⟨[mid.bsz, m.num_heads, s, m.head_dim], mid.v.data⟩⟩))
      ∧ (∀ (m : MultiheadAttention) (query key value : Tensor)
          (inc : Option IncState) (kpm am rp : Option Tensor) (pkv : Bool),
        forward m query key value inc kpm am rp pkv
          = checkAndProject m query key value pkv >>= fun mid =>
            headReshape m kpm mid >>= fun mid2 =>
            kpmGate kpm >>= fun _ =>
            mergeCache m mid2 inc >>= fun p =>
            scoreStage m (applyXpos m inc p.1) am kpm >>= fun aw =>
            normalizeBias m rp aw >>= fun aw2 =>
            finalize m (applyXpos m inc p.1) aw2 >>= fun r =>
            Except.ok (r.1, r.2, p.2)) := by
  refine ⟨?_, ?_, ?_⟩
  · intro m mid pk pv L s hh hd hb hpk hpkwf hpv hpvwf hks hvs
    have hd1 : 0 < m.head_dim * 1 := by omega
    have hpos3 : 0 < mid.bsz * m.num_heads * (m.head_dim * 1) :=
      Nat.mul_pos (Nat.mul_pos hb hh) hd1
    have hpos4 : 0 < mid.bsz * (m.num_heads * (m.head_dim * 1)) :=
      Nat.mul_pos hb (Nat.mul_pos hh hd1)
    have hpklen : pk.data.length = mid.bsz * m.num_heads * (m.head_dim * 1) * L := by
      rw [hpkwf, hpk]
      simp only [List.prod_cons, List.prod_nil]
      ring
    have hpvlen : pv.data.length = mid.bsz * m.num_heads * (m.head_dim * 1) * L := by
      rw [hpvwf, hpv]
      simp only [List.prod_cons, List.prod_nil]
      ring
    have hpk3 := view_infer3_ok hpos3 hpklen
    have hpv3 := view_infer3_ok hpos3 hpvlen
    obtain ⟨ck, hck, hcks, hckl⟩ := cat1_ok (a := ⟨[mid.bsz * m.num_heads, L,
      m.head_dim], pk.data⟩) rfl hks
    obtain ⟨cv, hcv, hcvs, hcvl⟩ := cat1_ok (a := ⟨[mid.bsz * m.num_heads, L,
      m.head_dim], pv.data⟩) rfl hvs
    have hck4len : ck.data.length
        = mid.bsz * (m.num_heads * (m.head_dim * 1)) * (L + s) := by
      rw [hckl]
      simp only [List.prod_cons, List.prod_nil]
      ring
    have hcv4len : cv.data.length
        = mid.bsz * (m.num_heads * (m.head_dim * 1)) * (L + s) := by
      rw [hcvl]
      simp only [List.prod_cons, List.prod_nil]
      ring
    have hck4 := view_infer4_ok hpos4 hck4len
    have hcv4 := view_infer4_ok hpos4 hcv4len
    have hgetD : ck.shape.getD 1 0 = L + s := by
      rw [hcks]
      rfl
    refine ⟨ck, cv, hck, hcv, hcks, hcvs, ?_⟩
    simp only [mergeCache, bind_ok_l, hpk3, hpv3, hck, hcv, hck4, hcv4, hgetD]
  · intro m mid pv0 s hh hd hb hks hkwf hvs hvwf
    have hd1 : 0 < m.head_dim * 1 := by omega
    have hpos4 : 0 < mid.bsz * (m.num_heads * (m.head_dim * 1)) :=
      Nat.mul_pos hb (Nat.mul_pos hh hd1)
    have hklen : mid.k.data.length
        = mid.bsz * (m.num_heads * (m.head_dim * 1)) * s := by
      rw [hkwf, hks]
      simp only [List.prod_cons, List.prod_nil]
      ring
    have hvlen : mid.v.data.length
        = mid.bsz * (m.num_heads * (m.head_dim * 1)) * s := by
      rw [hvwf, hvs]
      simp only [List.prod_cons, List.prod_nil]
      ring
    have hk4 := view_infer4_ok hpos4 hklen
    have hv4 := view_infer4_ok hpos4 hvlen
    have hgetD : mid.k.shape.getD 1 0 = s := by
      rw [hks]
      rfl
    simp only [mergeCache, bind_ok_l, hk4, hv4, hgetD]
  · intro m query key value inc kpm am rp pkv
    rfl

/-- C6 witness: one single-token call on a populated one-token cache -
the stored length grows from 1 to 2 and the stored tensors are the
concatenations. -/
theorem claim6_cache_merge_witness :
    ∃ ck cv,
      cat1 ⟨[midW.bsz * mRef.num_heads, 1, mRef.head_dim], pkW.data⟩ midW.k
          = Except.ok ck
        ∧ cat1 ⟨[midW.bsz * mRef.num_heads, 1, mRef.head_dim], pvW.data⟩ midW.v
          = Except.ok cv
        ∧ ck.shape = [midW.bsz * mRef.num_heads, 1 + 1, mRef.head_dim]
        ∧ cv.shape = [midW.bsz * mRef.num_heads, 1 + 1, mRef.head_dim]
        ∧ mergeCache mRef midW (some ⟨some pkW, some pvW⟩)
          = Except.ok ({ midW with k := ck, v := cv, src_len := 1 + 1 },
            some ⟨some ⟨[midW.bsz, mRef.num_heads, 1 + 1, mRef.head_dim], ck.data⟩,
              some ⟨[midW.bsz, mRef.num_heads, 1 + 1, mRef.head_dim], cv.data⟩⟩) :=
  claim6_cache_merge.1 mRef midW pkW pvW 1 1 (by decide) (by decide) (by decide)
    (by decide) (by decide) (by decide) (by decide) (by decide) (by decide)

/-- C7: placement of the relative bias (source lines 380-395).  First
conjunct: normalizeBias softmax-normalizes the raw scores FIRST, then
adds the rel_pos tensor (viewed to the weight shape) to the normalized
weights, and the float16 cast is applied to that sum - so the bias is
added after softmax, not to the raw scores.  Second conjunct: finalize
feeds exactly that tensor to the dropout module and hands the result to
the output tail, and returns the same tensor (viewed and transposed) as
the weight output.  Third conjunct: the output tail aggregates the
dropout result against the value tensor with bmm before the reassembly
and output projection. -/
theorem claim7_rel_pos_post_softmax :
    (∀ (m : MultiheadAttention) (rp aw : Tensor),
      (softmaxLast m.exp aw).shape.prod = rp.data.length →
      normalizeBias m (some rp) aw
        = Except.ok (Tensor.map ⟨(softmaxLast m.exp aw).shape,
            List.zipWith (fun x y => x + y) (softmaxLast m.exp aw).data rp.data⟩
            m.fp16))
      ∧ (∀ (m : MultiheadAttention) (mid : Mid) (aw : Tensor),
        finalize m mid aw
          = outTail m mid.bsz mid.tgt_len mid.embed_dim (m.dropout_module aw)
              mid.v >>= fun attn =>
            aw.viewShape [mid.bsz, m.num_heads, mid.tgt_len, mid.src_len]
              >>= fun w4 =>
            Except.ok (attn, w4.transpose 1 0))
      ∧ (∀ (m : MultiheadAttention) (b t e : Nat) (probs v : Tensor),
        outTail m b t e probs v
          = bmm probs v >>= fun a1 =>
            ((a1.transpose 0 1).reshape [VDim.fix t, VDim.fix b, VDim.fix e])
              >>= fun a3 =>
            m.out_proj.apply (if m.subln && m.self_attention
              then m.inner_attn_ln (a3.transpose 0 1)
              else (a3.transpose 0 1))) := by
  refine ⟨?_, ?_, ?_⟩
  · intro m rp aw hlen
    have hview := viewShape_ok hlen
    have haddB : addB (softmaxLast m.exp aw)
        ⟨(softmaxLast m.exp aw).shape, rp.data⟩
        = Except.ok ⟨(softmaxLast m.exp aw).shape,
            List.zipWith (fun x y => x + y) (softmaxLast m.exp aw).data rp.data⟩ := by
      unfold addB
      rw [broadcastShapes_same, bind_ok_l, broadcastTo_same rfl, bind_ok_l,
        broadcastTo_same rfl, bind_ok_l]
    simp only [normalizeBias, bind_ok_l, hview, haddB]
  · intro m mid aw
    rfl
  · intro m b t e probs v
    rfl

/-- C7 witness: at a concrete one-element score tensor and bias, the
normalized weight plus bias is what comes back (through the identity
fp16 rounding of the fixture). -/
theorem claim7_rel_pos_post_softmax_witness :
    normalizeBias mRef (some rp111) t111
      = Except.ok (Tensor.map ⟨(softmaxLast mRef.exp t111).shape,
          List.zipWith (fun x y => x + y) (softmaxLast mRef.exp t111).data
            rp111.data⟩ mRef.fp16) :=
  claim7_rel_pos_post_softmax.1 mRef rp111 t111 (by with_unfolding_all decide)

/-- C8 counterexample: the claim says the returned attention-weight
array has shape (batch, heads, target-len, source-len).  With batch 1
and 2 heads the live code returns shape (2, 1, 1, 1) - heads first -
because line 408 transposes axes 0 and 1 of the
(bsz, num_heads, tgt_len, src_len) view. -/
theorem claim8_weights_shape_counterexample :
    weightShape (forward m2h q8 q8 q8 none none none none false) = [2, 1, 1, 1]
      ∧ [2, 1, 1, 1] ≠ ([1, 2, 1, 1] : List Nat) := by
  with_unfolding_all decide

end TSF
